import Mathlib

/-!
# Verification of the vermin single-unit analysis engine

Shallow embedding of `vermin/source_visitor.py` (the `SourceVisitor` class) and of
the version-combination primitive, together with proofs of the documented
properties of the engine.

Modelling conventions:
* Python version numbers (`2.0`, `2.7`, `3.6`, ...) are rationals (`ℚ`).
* A Version Pair slot is `Option ℚ`: `Option.none` is Python's `None`
  (the "excluded marker": this major line is never compatible), `Option.some 0`
  is the integer `0` ("no constraint from this fact").
* Python lists are Lean lists; `list.append(x)` is `++ [x]`.
* Python dicts (`__import_mem_mod`, `__name_res`, `__module_as_name`) are
  association lists with insert-at-head, so `List.lookup` finds the most
  recent binding, matching dict overwrite-on-assignment semantics.
* Diagnostics are omitted: the fields `__line`, `__depth`, `__output_text`,
  `__line_col_entities` and the verbosity/quiet configuration only feed
  verbose printing (`__vprint` and friends) and never influence the fact
  sets or the resolved versions.
* The rule tables of `vermin/rules.py` are an external read-only knowledge
  base (spec §2); they are a parameter (`Tables`) of the embedding.
-/

namespace Vermin

/-- A Version Pair `(v2_floor, v3_floor)`.  Each slot is `Option.none`
(excluded marker) or `Option.some q` with `q = 0` meaning unconstrained. -/
abbrev VersionPair := Option ℚ × Option ℚ

/-- The distinct unresolvable-conflict error (`InvalidVersionException` in
`vermin`). -/
inductive InvalidVersionException where
  | mk
deriving DecidableEq

/-- Modelled from the spec: the per-slot merge (§4.3 rules 2-4) of
`combine_versions` in `vermin/utility.py`, which is not under `src/`.
Rule 2: a `0` slot takes the other side's value; rule 3: the excluded marker
dominates; rule 4: concrete values merge by arithmetic maximum.  The branch
order mirrors the spec's rule order. -/
def mergeSlot : Option ℚ → Option ℚ → Option ℚ
  | v1, v2 =>
    if v1 = Option.some 0 ∧ v2 = Option.some 0 then Option.some 0
    else if v1 = Option.some 0 then v2
    else if v2 = Option.some 0 then v1
    else
      match v1, v2 with
      | Option.none, _ => Option.none
      | _, Option.none => Option.none
      | Option.some a, Option.some b => Option.some (max a b)

/-- Modelled from the spec: `combine_versions` of `vermin/utility.py`, which is
not under `src/`.  §4.3 rule 1: if one side excludes the 2.x line while the
other excludes the 3.x line, the merge is contradictory and raises the
conflict error; this cross-exclusion reading is pinned down by
`test_combine_versions` in `src/tests/general.py` (both conflict orders raise,
while `combine([2.0,3.0],[None,3.0])` and `combine([2.0,3.0],[None,None])`
do not).  Otherwise the two slots merge independently by `mergeSlot`. -/
def combine_versions (v1 v2 : VersionPair) : Except InvalidVersionException VersionPair :=
  if (v1.1 = Option.none ∧ v2.2 = Option.none) ∨ (v1.2 = Option.none ∧ v2.1 = Option.none) then
    Except.error InvalidVersionException.mk
  else
    Except.ok (mergeSlot v1.1 v2.1, mergeSlot v1.2 v2.2)

/-- Configuration consumed during traversal (`vermin/config.py`).  Only
`lax_mode` influences the collected facts; the `quiet`/`verbose`/
`print_visits` switches gate diagnostics output only and are omitted. -/
structure Config where
  lax_mode : Bool
deriving DecidableEq

/-- The read-only rule tables of `vermin/rules.py` (external knowledge base,
spec §2): mappings from feature signatures to required Version Pairs, plus the
argument-index tables for codecs calls.  Dicts become association lists. -/
structure Tables where
  MOD_REQS : List (String × VersionPair)
  MOD_MEM_REQS : List (String × VersionPair)
  KWARGS_REQS : List ((String × Option String) × VersionPair)
  STRFTIME_REQS : List (String × VersionPair)
  ARRAY_TYPECODE_REQS : List (String × VersionPair)
  CODECS_ERROR_HANDLERS : List (String × VersionPair)
  CODECS_ERRORS_INDICES : List (String × Int)
  CODECS_ENCODINGS : List (List String × VersionPair)
  CODECS_ENCODINGS_INDICES : List (String × List Int)

/-- The empty knowledge base, used for concrete evaluations that do not
depend on table content. -/
def Tables.empty : Tables := ⟨[], [], [], [], [], [], [], [], []⟩

/-- One argument of `dotted_name`: the Python callers pass lists mixing
strings and (possibly empty) lists of strings. -/
inductive DotPart where
  | s (x : String)
  | l (xs : List String)

/-- Modelled from the spec: `dotted_name` of `vermin/utility.py`, which is not
under `src/`.  It flattens nested lists and joins all parts with `"."`
(behaviour pinned by `test_dotted_name` in `src/tests/general.py`). -/
def dotted_name (parts : List DotPart) : String :=
  String.intercalate (".") (List.flatten (parts.map fun p =>
    match p with
    | DotPart.s x => [x]
    | DotPart.l xs => xs))

/-! The syntax-tree node model, mirroring the `ast` node kinds the visitor
dispatches on.  `Other` stands for every node kind without a dedicated
`visit_<Kind>` handler (e.g. `Module`, `Expr`, `Compare`, `BinOp`): the
`ast.NodeVisitor` base class sends those to `generic_visit`, which visits all
child nodes in field order.  `NamedExpr` (the 3.8 walrus node) is kept as its
own constructor because claims refer to it; the source has no handler for it,
so it also falls back to `generic_visit`.  Import aliases are plain
`(name, asname)` data: the `alias` child nodes have a `pass` handler.
Operator/context child nodes (`Load`, `Store`, `Add`, `Or`, ...) carry no
data and have `pass` handlers; they are omitted.  Mutually inductive lists
are used instead of `List Node` so that all recursion is structural and every
definition evaluates inside the kernel. -/
mutual
/-- A syntax-tree node. -/
inductive Node where
  | Import (names : List (String × Option String))
  | ImportFrom (mod : Option String) (names : List (String × Option String))
  | Name (id : String)
  | Print (values : NodeList)
  | Call (func : Node) (args : NodeList) (kwds : NodeList)
  | Keyword (arg : Option String) (value : Node)
  | Attribute (value : Node) (attr : String)
  | Str (s : String)
  | Bytes (s : String)
  | JoinedStr (values : NodeList)
  | NameConstant (value : Option Bool)
  | Num
  | Assign (targets : NodeList) (value : Node)
  | AugAssign (target : Node) (value : Node)
  | AnnAssign (target : Node) (ann : Node) (value : OptNode)
  | FunctionDef (name : String) (args : ArgList) (ret : OptNode) (body : NodeList)
  | AsyncFunctionDef (name : String) (args : ArgList) (ret : OptNode) (body : NodeList)
  | Await (value : Node)
  | ClassDef (name : String) (bases : NodeList) (body : NodeList)
  | NamedExpr (target : Node) (value : Node)
  | If (test : Node) (body : NodeList) (orelse : NodeList)
  | IfExp (test : Node) (body : Node) (orelse : Node)
  | For (target : Node) (iter : Node) (body : NodeList) (orelse : NodeList)
  | While (test : Node) (body : NodeList) (orelse : NodeList)
  | Try (body : NodeList) (handlers : NodeList) (orelse : NodeList) (finalbody : NodeList)
  | TryExcept (body : NodeList) (handlers : NodeList) (orelse : NodeList)
  | BoolOp (values : NodeList)
  | Constant (isBytes : Bool)
  | Other (children : NodeList)
inductive NodeList where
  | nil
  | cons (head : Node) (tail : NodeList)
inductive OptNode where
  | none
  | some (n : Node)
inductive ArgList where
  | nil
  | cons (name : String) (ann : OptNode) (tail : ArgList)
end

/-- Convert a `NodeList` to an ordinary list. -/
def NodeList.toList : NodeList → List Node
  | NodeList.nil => []
  | NodeList.cons n ns => n :: NodeList.toList ns

/-- Build a `NodeList` from an ordinary list (for concrete examples). -/
def nl : List Node → NodeList
  | [] => NodeList.nil
  | n :: ns => NodeList.cons n (nl ns)

mutual
/-- Number of (modelled) nodes in a subtree. -/
def Node.size : Node → Nat
  | Node.Import _ => 1
  | Node.ImportFrom _ _ => 1
  | Node.Name _ => 1
  | Node.Print values => 1 + NodeList.sizeL values
  | Node.Call func args kwds => 1 + Node.size func + NodeList.sizeL args + NodeList.sizeL kwds
  | Node.Keyword _ value => 1 + Node.size value
  | Node.Attribute value _ => 1 + Node.size value
  | Node.Str _ => 1
  | Node.Bytes _ => 1
  | Node.JoinedStr values => 1 + NodeList.sizeL values
  | Node.NameConstant _ => 1
  | Node.Num => 1
  | Node.Assign targets value => 1 + NodeList.sizeL targets + Node.size value
  | Node.AugAssign target value => 1 + Node.size target + Node.size value
  | Node.AnnAssign target ann value => 1 + Node.size target + Node.size ann + OptNode.sizeO value
  | Node.FunctionDef _ args ret body =>
    1 + ArgList.sizeA args + NodeList.sizeL body + OptNode.sizeO ret
  | Node.AsyncFunctionDef _ args ret body =>
    1 + ArgList.sizeA args + NodeList.sizeL body + OptNode.sizeO ret
  | Node.Await value => 1 + Node.size value
  | Node.ClassDef _ bases body => 1 + NodeList.sizeL bases + NodeList.sizeL body
  | Node.NamedExpr target value => 1 + Node.size target + Node.size value
  | Node.If test body orelse => 1 + Node.size test + NodeList.sizeL body + NodeList.sizeL orelse
  | Node.IfExp test body orelse => 1 + Node.size test + Node.size body + Node.size orelse
  | Node.For target iter body orelse =>
    1 + Node.size target + Node.size iter + NodeList.sizeL body + NodeList.sizeL orelse
  | Node.While test body orelse => 1 + Node.size test + NodeList.sizeL body + NodeList.sizeL orelse
  | Node.Try body handlers orelse finalbody =>
    1 + NodeList.sizeL body + NodeList.sizeL handlers + NodeList.sizeL orelse +
      NodeList.sizeL finalbody
  | Node.TryExcept body handlers orelse =>
    1 + NodeList.sizeL body + NodeList.sizeL handlers + NodeList.sizeL orelse
  | Node.BoolOp values => 1 + NodeList.sizeL values
  | Node.Constant _ => 1
  | Node.Other children => 1 + NodeList.sizeL children
/-- Total node count of a node list. -/
def NodeList.sizeL : NodeList → Nat
  | NodeList.nil => 0
  | NodeList.cons n ns => Node.size n + NodeList.sizeL ns
/-- Total node count of an optional node. -/
def OptNode.sizeO : OptNode → Nat
  | OptNode.none => 0
  | OptNode.some n => Node.size n
/-- Total node count of the annotations carried by a formal-argument list. -/
def ArgList.sizeA : ArgList → Nat
  | ArgList.nil => 0
  | ArgList.cons _ ann rest => OptNode.sizeO ann + ArgList.sizeA rest
end

/-- Child nodes of a node in `ast` field order (`ast.iter_child_nodes`),
restricted to the modelled node kinds (identifier fields and omitted
operator/context nodes yield no children). -/
def nodeChildren : Node → List Node
  | Node.Import _ => []
  | Node.ImportFrom _ _ => []
  | Node.Name _ => []
  | Node.Print values => values.toList
  | Node.Call func args kwds => func :: args.toList ++ kwds.toList
  | Node.Keyword _ value => [value]
  | Node.Attribute value _ => [value]
  | Node.Str _ => []
  | Node.Bytes _ => []
  | Node.JoinedStr values => values.toList
  | Node.NameConstant _ => []
  | Node.Num => []
  | Node.Assign targets value => targets.toList ++ [value]
  | Node.AugAssign target value => [target, value]
  | Node.AnnAssign target ann value =>
    [target, ann] ++ (match value with | OptNode.none => [] | OptNode.some v => [v])
  | Node.FunctionDef _ args ret body =>
    argAnnList args ++ body.toList ++ (match ret with | OptNode.none => [] | OptNode.some v => [v])
  | Node.AsyncFunctionDef _ args ret body =>
    argAnnList args ++ body.toList ++ (match ret with | OptNode.none => [] | OptNode.some v => [v])
  | Node.Await value => [value]
  | Node.ClassDef _ bases body => bases.toList ++ body.toList
  | Node.NamedExpr target value => [target, value]
  | Node.If test body orelse => test :: body.toList ++ orelse.toList
  | Node.IfExp test body orelse => [test, body, orelse]
  | Node.For target iter body orelse => target :: iter :: body.toList ++ orelse.toList
  | Node.While test body orelse => test :: body.toList ++ orelse.toList
  | Node.Try body handlers orelse finalbody =>
    body.toList ++ handlers.toList ++ orelse.toList ++ finalbody.toList
  | Node.TryExcept body handlers orelse => body.toList ++ handlers.toList ++ orelse.toList
  | Node.BoolOp values => values.toList
  | Node.Constant _ => []
  | Node.Other children => children.toList
where
  /-- The annotation nodes reachable under a function's `arguments` node. -/
  argAnnList : ArgList → List Node
    | ArgList.nil => []
    | ArgList.cons _ OptNode.none rest => argAnnList rest
    | ArgList.cons _ (OptNode.some a) rest => a :: argAnnList rest

/-- Total node count of a worklist. -/
def qsize (q : List Node) : Nat := (q.map Node.size).sum

/-- Breadth-first enumeration with explicit fuel; one unit of fuel is spent
per yielded node. -/
def walkAux : Nat → List Node → List Node
  | 0, _ => []
  | _ + 1, [] => []
  | fuel + 1, n :: rest => n :: walkAux fuel (rest ++ nodeChildren n)

/-- `ast.walk(node)`: yields `node` and all its descendants breadth-first
(deque seeded with the node, extended with each popped node's children).
The fuel `Node.size node` is exactly the number of nodes enumerated, so the
enumeration is complete (see `walkAux_fuel_irrelevant`). -/
def walk (node : Node) : List Node := walkAux (Node.size node) [node]

/-- `__get_attribute_name`: fold over `ast.walk(node)`, prepending the `attr`
of every `Attribute` node met, preceded by its `value`'s `id` when the value
is a bare `Name`. -/
def get_attribute_name (node : Node) : List String :=
  (walk node).foldl (fun acc n =>
    match n with
    | Node.Attribute v a =>
      let acc2 := a :: acc
      match v with
      | Node.Name id => id :: acc2
      | _ => acc2
    | _ => acc) []

/-- The mutable analysis state of one `SourceVisitor` instance: the
observation sets, boolean feature flags, alias maps and the user-defined
symbol set (diagnostics fields omitted, see the file header). -/
structure SourceVisitor where
  modules : List String
  members : List String
  printv2 : Bool
  printv3 : Bool
  format27 : Bool
  longv2 : Bool
  bytesv3 : Bool
  fstrings : Bool
  bool_const : Bool
  annotations : Bool
  var_annotations : Bool
  coroutines : Bool
  function_name : Option String
  kwargs : List (String × Option String)
  strftime_directives : List String
  codecs_error_handlers : List String
  codecs_encodings : List String
  import_mem_mod : List (String × String)
  name_res : List (String × String)
  user_defs : List String
  array_typecodes : List String
  module_as_name : List (String × String)
deriving DecidableEq

/-- `SourceVisitor.__init__`: every set empty, every flag off. -/
def SourceVisitor.init : SourceVisitor where
  modules := []
  members := []
  printv2 := false
  printv3 := false
  format27 := false
  longv2 := false
  bytesv3 := false
  fstrings := false
  bool_const := false
  annotations := false
  var_annotations := false
  coroutines := false
  function_name := Option.none
  kwargs := []
  strftime_directives := []
  codecs_error_handlers := []
  codecs_encodings := []
  import_mem_mod := []
  name_res := []
  user_defs := []
  array_typecodes := []
  module_as_name := []

/-- `__add_module`: skip user-defined spellings, then append if absent. -/
def add_module (st : SourceVisitor) (m : String) : SourceVisitor :=
  if m ∈ st.user_defs then st
  else if m ∈ st.modules then st
  else { st with modules := st.modules ++ [m] }

/-- `__add_member`: skip user-defined spellings; append (unconditionally,
without a duplicate check) whenever the fully-qualified name is a key of
`MOD_MEM_REQS`. -/
def add_member (t : Tables) (st : SourceVisitor) (mem : String) : SourceVisitor :=
  if mem ∈ st.user_defs then st
  else if (t.MOD_MEM_REQS.lookup mem).isSome then
    { st with members := st.members ++ [mem] }
  else st

/-- `__add_kwargs`: skip user-defined functions; append the pair if it is a
`KWARGS_REQS` key and not yet present. -/
def add_kwargs (t : Tables) (st : SourceVisitor) (fn : String) (kw : Option String) :
    SourceVisitor :=
  if fn ∈ st.user_defs then st
  else if (t.KWARGS_REQS.lookup (fn, kw)).isSome ∧ (fn, kw) ∉ st.kwargs then
    { st with kwargs := st.kwargs ++ [(fn, kw)] }
  else st

/-- `__add_strftime_directive`: append, with no duplicate check. -/
def add_strftime_directive (st : SourceVisitor) (g : String) : SourceVisitor :=
  { st with strftime_directives := st.strftime_directives ++ [g] }

/-- `__add_array_typecode`: append if absent. -/
def add_array_typecode (st : SourceVisitor) (tc : String) : SourceVisitor :=
  if tc ∈ st.array_typecodes then st
  else { st with array_typecodes := st.array_typecodes ++ [tc] }

/-- `hasattr(node, "s")` together with the `.s` payload: string and
byte-string literal nodes carry it. -/
def hasStrVal : Node → Option String
  | Node.Str s => Option.some s
  | Node.Bytes s => Option.some s
  | _ => Option.none

/-- The `errors=` keyword sweep of `__add_codecs_error_handler`. -/
def codecs_err_kw_step (s : SourceVisitor) (kw : Node) : SourceVisitor :=
  match kw with
  | Node.Keyword (Option.some a) v =>
    if a = ("errors") then
      match hasStrVal v with
      | Option.some nm =>
        { s with codecs_error_handlers := s.codecs_error_handlers ++ [nm] }
      | Option.none => s
    else s
  | _ => s

/-- `__add_codecs_error_handler`: for a known function, inspect the
documented positional index and every `errors=` keyword argument; append each
string-literal value found (no duplicate check). -/
def add_codecs_error_handler (t : Tables) (st : SourceVisitor) (fn : String)
    (args kws : List Node) : SourceVisitor :=
  match t.CODECS_ERRORS_INDICES.lookup fn with
  | Option.none => st
  | Option.some idx =>
    let st :=
      if 0 ≤ idx then
        match args[idx.toNat]? with
        | Option.some arg =>
          match hasStrVal arg with
          | Option.some nm =>
            { st with codecs_error_handlers := st.codecs_error_handlers ++ [nm] }
          | Option.none => st
        | Option.none => st
      else st
    kws.foldl codecs_err_kw_step st

/-- The `encoding=`/`data_encoding=`/`file_encoding=` keyword sweep of
`__add_codecs_encoding` (values appended with no duplicate check). -/
def codecs_enc_kw_step (s2 : SourceVisitor) (kw : Node) : SourceVisitor :=
  match kw with
  | Node.Keyword (Option.some a) v =>
    if a = ("encoding") ∨ a = ("data_encoding") ∨ a = ("file_encoding") then
      match hasStrVal v with
      | Option.some nm => { s2 with codecs_encodings := s2.codecs_encodings ++ [nm] }
      | Option.none => s2
    else s2
  | _ => s2

/-- One iteration of the per-index loop of `__add_codecs_encoding`: the
indexed positional argument, then the keyword sweep (run once per index, as
in the source). -/
def codecs_enc_idx_step (args kws : List Node) (s : SourceVisitor) (idx : Int) :
    SourceVisitor :=
  let s :=
    if 0 ≤ idx then
      match args[idx.toNat]? with
      | Option.some arg =>
        match hasStrVal arg with
        | Option.some nm => { s with codecs_encodings := s.codecs_encodings ++ [nm] }
        | Option.none => s
      | Option.none => s
    else s
  kws.foldl codecs_enc_kw_step s

/-- `__add_codecs_encoding`: for a known function, sweep every documented
positional index. -/
def add_codecs_encoding (t : Tables) (st : SourceVisitor) (fn : String)
    (args kws : List Node) : SourceVisitor :=
  match t.CODECS_ENCODINGS_INDICES.lookup fn with
  | Option.none => st
  | Option.some idxs => idxs.foldl (codecs_enc_idx_step args kws) st

/-- `__check_codecs_function`: error handlers, then encodings. -/
def check_codecs_function (t : Tables) (st : SourceVisitor) (fn : String)
    (args kws : List Node) : SourceVisitor :=
  add_codecs_encoding t (add_codecs_error_handler t st fn args kws) fn args kws

/-- `__add_user_def`: record the name, then sweep `modules` and `members`,
deleting every entry equal to any user-defined name (the reverse-index
deletion loop of the source removes all matches while preserving the order of
the rest, i.e. an order-preserving filter). -/
def add_user_def (st : SourceVisitor) (name : String) : SourceVisitor :=
  let st :=
    if name ∈ st.user_defs then st
    else { st with user_defs := st.user_defs ++ [name] }
  { st with
    modules := st.user_defs.foldl (fun ms ud => ms.filter (fun m => m ≠ ud)) st.modules,
    members := st.user_defs.foldl (fun ms ud => ms.filter (fun m => m ≠ ud)) st.members }

/-- `__add_user_def_node`: an `ast.Name` target contributes its identifier.
(The `str` and `.arg` branches of the source cannot arise for the assignment
targets this helper is applied to.) -/
def add_user_def_node (st : SourceVisitor) (node : Node) : SourceVisitor :=
  match node with
  | Node.Name id => add_user_def st id
  | _ => st

/-- `__add_name_res`: dict assignment. -/
def add_name_res (st : SourceVisitor) (src tgt : String) : SourceVisitor :=
  { st with name_res := (src, tgt) :: st.name_res }

/-- The rvalue resolution of `__add_name_res_assign_node`: a `Call` rvalue
contributes its callee's bare or dotted name, an `Attribute` rvalue its
dotted name. -/
def assign_rhs_name : Node → Option String
  | Node.Call f _ _ =>
    (match f with
    | Node.Name id => Option.some id
    | Node.Attribute v a => Option.some (dotted_name [DotPart.l (get_attribute_name (Node.Attribute v a))])
    | _ => Option.none)
  | Node.Attribute v a =>
    Option.some (dotted_name [DotPart.l (get_attribute_name (Node.Attribute v a))])
  | _ => Option.none

/-- One target of `__add_name_res_assign_node`: only bare `Name` targets
record a resolution. -/
def name_res_target_step (vn : String) (s : SourceVisitor) (tg : Node) : SourceVisitor :=
  match tg with
  | Node.Name id => add_name_res s id vn
  | _ => s

/-- `__add_name_res_assign_node`: record `target-name → rvalue-name` for
every bare `Name` target. -/
def add_name_res_assign (st : SourceVisitor) (targets : List Node) (value : Node) :
    SourceVisitor :=
  match assign_rhs_name value with
  | Option.none => st
  | Option.some vn => targets.foldl (name_res_target_step vn) st

/-- Python `str.endswith`: string-suffix test (structural, over the
character lists). -/
def strEndsWith (s suffix : String) : Bool := List.isSuffixOf suffix.toList s.toList

/-- Python `str.split(".")`, structurally: split on every dot, keeping empty
segments, never returning an empty list. -/
def splitDotAux : List Char → List Char → List String
  | [], acc => [String.mk acc.reverse]
  | c :: rest, acc =>
    if c == '.' then String.mk acc.reverse :: splitDotAux rest []
    else splitDotAux rest (c :: acc)

/-- Python `str.split(".")`. -/
def strSplitDot (s : String) : List String := splitDotAux s.toList []

/-- Python `str.lower()` (ASCII case folding suffices for the encodings the
sources compare). -/
def strToLower (s : String) : String := String.mk (s.toList.map Char.toLower)

/-- The body of one iteration of the `for mod in self.__modules` loop in
`visit_Attribute`. -/
def attrModStep (t : Tables) (fn0 : String) (rest : List String) (dn : String)
    (st : SourceVisitor) (m : String) : SourceVisitor :=
  if fn0 = m then add_module st dn
  else if strEndsWith m fn0 then add_member t st (dotted_name [DotPart.s m, DotPart.l rest])
  else st

/-- The `for mod in self.__modules` loop of `visit_Attribute`.  Python
iterates the live list while `__add_module` may append to it during the
sweep; the only element ever passed to `__add_module` here is
`dotted_name(full_name)` (`dn`), so at most one append can happen (a second
attempt finds `dn` present).  The iteration sequence is therefore the entry
snapshot of `modules` followed by `dn` exactly when `dn` was appended,
which is what this definition replays. -/
def visit_attribute_modules (t : Tables) (fn0 : String) (rest : List String) (dn : String)
    (st : SourceVisitor) : SourceVisitor :=
  let snapshot := st.modules
  let st2 := snapshot.foldl (attrModStep t fn0 rest dn) st
  if dn ∈ st2.modules ∧ dn ∉ snapshot then attrModStep t fn0 rest dn st2 dn
  else st2

/-- Python `\w` (word character); the sources only ever match ASCII
directives. -/
def isWordChar (c : Char) : Bool := c.isAlphanum || c == '_'

/-- `re.findall("(%\w)", s)` on a character list: scan left to right; a `%`
followed by a word character yields that two-character directive and resumes
after it. -/
def strftime_scan : List Char → List String
  | [] => []
  | [_] => []
  | c1 :: c2 :: rest =>
    if c1 == '%' && isWordChar c2 then String.mk [c1, c2] :: strftime_scan rest
    else strftime_scan (c2 :: rest)

/-- `re.findall("(%\w)", s)`. -/
def strftime_findall (s : String) : List String := strftime_scan s.toList

/-- Scan for an occurrence of an open brace immediately followed by a close
brace. -/
def emptyBraceScan : List Char → Bool
  | c1 :: c2 :: rest => (c1 == '\x7b' && c2 == '\x7d') || emptyBraceScan (c2 :: rest)
  | _ => false

/-- Python `"{}" in s`: substring containment of the empty format field. -/
def hasEmptyFormatField (s : String) : Bool := emptyBraceScan s.toList

/-- The annotations post-check of `__handle_FunctionDef`: a present return
annotation sets the flag and returns; otherwise the first annotated formal
argument sets it. -/
def argHasAnn : ArgList → Bool
  | ArgList.nil => false
  | ArgList.cons _ (OptNode.some _) _ => true
  | ArgList.cons _ OptNode.none rest => argHasAnn rest

/-- Tail of `__handle_FunctionDef` (after `generic_visit`). -/
def handle_FunctionDef_post (args : ArgList) (ret : OptNode) (st : SourceVisitor) :
    SourceVisitor :=
  match ret with
  | OptNode.some _ => { st with annotations := true }
  | OptNode.none => if argHasAnn args then { st with annotations := true } else st

/-- One alias of `visit_Import`: register module and member, remember the
as-name. -/
def import_alias_step (t : Tables) (s : SourceVisitor) (nm : String × Option String) :
    SourceVisitor :=
  let s := add_module s nm.1
  let s := add_member t s nm.1
  match nm.2 with
  | Option.some asname => { s with module_as_name := (asname, nm.1) :: s.module_as_name }
  | Option.none => s

/-- One alias of `visit_ImportFrom`: star imports register nothing; otherwise
record the member-module mapping, the combined `module.name` path (as module
and as member) and the bare member; an as-name maps to the combined path. -/
def import_from_alias_step (t : Tables) (mname : String) (s : SourceVisitor)
    (nm : String × Option String) : SourceVisitor :=
  let s :=
    if nm.1 = ("*") then s
    else
      let s := { s with import_mem_mod := (nm.1, mname) :: s.import_mem_mod }
      let comb := mname ++ (".") ++ nm.1
      let s := add_module s comb
      let s := add_member t s comb
      add_member t s nm.1
  match nm.2 with
  | Option.some asname =>
    { s with module_as_name := (asname, mname ++ (".") ++ nm.1) :: s.module_as_name }
  | Option.none => s

/-- One argument of an `array(...)` call: a string literal registers a
typecode. -/
def array_arg_step (s2 : SourceVisitor) (a : Node) : SourceVisitor :=
  match a with
  | Node.Str sv => add_array_typecode s2 sv
  | _ => s2

/-- One argument of a `strftime`/`strptime` call: every directive of a
string-literal argument is registered. -/
def strftime_arg_step (s2 : SourceVisitor) (arg : Node) : SourceVisitor :=
  match hasStrVal arg with
  | Option.some sv => (strftime_findall sv).foldl add_strftime_directive s2
  | Option.none => s2

/-- The alias-resolved codecs check of `visit_Call` for a bare-name callee:
an imported member resolves to `module.name`, an as-name alias to its stored
qualified name. -/
def call_name_codecs (t : Tables) (id : String) (args kwds : List Node)
    (s : SourceVisitor) : SourceVisitor :=
  match s.import_mem_mod.lookup id with
  | Option.some m2 => check_codecs_function t s (m2 ++ (".") ++ id) args kwds
  | Option.none =>
    match s.module_as_name.lookup id with
    | Option.some nm => check_codecs_function t s nm args kwds
    | Option.none => s

/-- The bare-name-callee branch of `visit_Call`: remember the function name,
register a member candidate, run the codecs checks, then the print-as-call
flag or (for `array` calls, also through an as-name alias) the typecode
sweep. -/
def call_name_branch (t : Tables) (id : String) (args kwds : List Node)
    (st : SourceVisitor) : SourceVisitor :=
  let s := { st with function_name := Option.some id }
  let s := add_member t s id
  let s := call_name_codecs t id args kwds s
  if id = ("print") then { s with printv3 := true }
  else if id = ("array") ∨ s.module_as_name.lookup id = Option.some ("array.array") then
    args.foldl array_arg_step s
  else s

/-- The dotted-callee branch of `visit_Call`: the empty-field format
receiver check, or the strftime/strptime directive sweep. -/
def call_attr_branch (v : Node) (a : String) (args : List Node)
    (st : SourceVisitor) : SourceVisitor :=
  if a = ("format") then
    match v with
    | Node.Str sv => if hasEmptyFormatField sv then { st with format27 := true } else st
    | _ => st
  else if a = ("strftime") ∨ a = ("strptime") then
    args.foldl strftime_arg_step st
  else st

/-- The callee analysis of `visit_Call`, everything before its
`generic_visit` call; for an `Attribute` callee the dotted function name is
additionally resolved and the codecs checks run on it. -/
def call_func_checks (t : Tables) (func : Node) (args kwds : List Node)
    (st : SourceVisitor) : SourceVisitor :=
  let st :=
    match func with
    | Node.Name id => call_name_branch t id args kwds st
    | Node.Attribute v a => call_attr_branch v a args st
    | _ => st
  match func with
  | Node.Attribute _ _ =>
    let fname := dotted_name [DotPart.l (get_attribute_name func)]
    let st := { st with function_name := Option.some fname }
    check_codecs_function t st fname args kwds
  | _ => st

/-- Second spelling of `visit_keyword`: the function name qualified through
the imported-member map. -/
def keyword_stage_imm_fn (t : Tables) (arg : Option String) (fn : String)
    (st : SourceVisitor) : SourceVisitor :=
  match st.import_mem_mod.lookup fn with
  | Option.some m2 => add_kwargs t st (dotted_name [DotPart.s m2, DotPart.s fn]) arg
  | Option.none => st

/-- Third spelling of `visit_keyword`: the head of the split function name
qualified through the imported-member map. -/
def keyword_stage_imm_head (t : Tables) (arg : Option String) (fn : String)
    (exp : List String) (st : SourceVisitor) : SourceVisitor :=
  match st.import_mem_mod.lookup (exp.headD ("")) with
  | Option.some m2 => add_kwargs t st (dotted_name [DotPart.s m2, DotPart.s fn]) arg
  | Option.none => st

/-- Fourth spelling of `visit_keyword`: indirect lookup through the
name-resolution map, then as imported member or as fully-qualified name. -/
def keyword_stage_name_res (t : Tables) (arg : Option String) (exp : List String)
    (st : SourceVisitor) : SourceVisitor :=
  match st.name_res.lookup (exp.headD ("")) with
  | Option.some res =>
    (match st.import_mem_mod.lookup res with
    | Option.some m2 =>
      add_kwargs t st (dotted_name [DotPart.s m2, DotPart.s res, DotPart.l exp.tail]) arg
    | Option.none => add_kwargs t st (dotted_name [DotPart.s res, DotPart.l exp.tail]) arg)
  | Option.none => st

/-- `visit_keyword` with a known function name: register the
`(function, keyword)` pair under every plausible qualified spelling
reachable through the alias chains. -/
def keyword_checks_fn (t : Tables) (arg : Option String) (fn : String)
    (st : SourceVisitor) : SourceVisitor :=
  let st := add_kwargs t st fn arg
  let st := keyword_stage_imm_fn t arg fn st
  let exp := strSplitDot fn
  let st := keyword_stage_imm_head t arg fn exp st
  keyword_stage_name_res t arg exp st

/-- `visit_keyword`: a no-op outside a call with a known function name. -/
def keyword_checks (t : Tables) (arg : Option String) (st : SourceVisitor) : SourceVisitor :=
  match st.function_name with
  | Option.none => st
  | Option.some fn => keyword_checks_fn t arg fn st

/-- `visit_Attribute`: resolve the dotted path, sweep the known modules
(`visit_attribute_modules`), register the full path as a generic member
candidate, then attempt the indirect resolution through the name-resolution
and import maps. -/
def attribute_checks (t : Tables) (node : Node) (st : SourceVisitor) : SourceVisitor :=
  match get_attribute_name node with
  | [] => st
  | fn0 :: rest =>
    let st := visit_attribute_modules t fn0 rest (dotted_name [DotPart.l (fn0 :: rest)]) st
    let st := add_member t st (dotted_name [DotPart.l (fn0 :: rest)])
    match st.name_res.lookup fn0 with
    | Option.some res =>
      (match st.import_mem_mod.lookup res with
      | Option.some m2 =>
        add_member t st (dotted_name [DotPart.s m2, DotPart.s res, DotPart.l rest])
      | Option.none => add_member t st (dotted_name [DotPart.s res, DotPart.l rest]))
    | Option.none => st

/-- The rvalue aliasing of `visit_AnnAssign`: an annotated assignment has an
optional rvalue; an absent rvalue records nothing. -/
def ann_assign_rhs (target : Node) (value : OptNode) (st : SourceVisitor) : SourceVisitor :=
  match value with
  | OptNode.some v => add_name_res_assign st [target] v
  | OptNode.none => st

mutual
/-- The dispatcher `SourceVisitor.visit`, one case per `visit_<Kind>` handler
of the source; node kinds with no handler fall back to `generic_visit`
(visit all child nodes in field order).  Handlers that do not call
`generic_visit` in the source (`visit_ImportFrom`, `visit_Name`,
`visit_Attribute`, `visit_keyword` and the literal handlers) do not descend
into their children here either. -/
def visit (cfg : Config) (t : Tables) : Node → SourceVisitor → SourceVisitor
  -- visit_Import: register module and member per alias, remember as-names;
  -- the trailing generic_visit only reaches alias nodes, whose handler is pass.
  | Node.Import names, st => names.foldl (import_alias_step t) st
  -- visit_ImportFrom: a relative import (module is None) returns immediately;
  -- otherwise register the module, then per imported name the member mapping,
  -- the combined path (module and member) and the bare member, and remember
  -- as-names.  No generic_visit call.
  | Node.ImportFrom m names, st =>
    (match m with
    | Option.none => st
    | Option.some mname =>
      let st := add_module st mname
      names.foldl (import_from_alias_step t mname) st)
  -- visit_Name: the legacy long-integer type name raises the flag.
  | Node.Name id, st => if id = ("long") then { st with longv2 := true } else st
  -- visit_Print (py2 grammar): raise the print-statement flag, then recurse.
  | Node.Print values, st => visitList cfg t values { st with printv2 := true }
  -- visit_Call: the pre-generic_visit callee checks are call_func_checks;
  -- then generic_visit (func, args, keywords in field order), then reset
  -- function_name.
  | Node.Call func args kwds, st =>
    let st := call_func_checks t func args.toList kwds.toList st
    let st := visit cfg t func st
    let st := visitList cfg t args st
    let st := visitList cfg t kwds st
    { st with function_name := Option.none }
  -- visit_keyword.  No recursion.
  | Node.Keyword arg _, st => keyword_checks t arg st
  -- visit_Attribute.  No recursion.
  | Node.Attribute v a, st => attribute_checks t (Node.Attribute v a) st
  -- ast.Str has no handler; generic_visit reaches no children.
  | Node.Str _, st => st
  -- visit_Bytes: raise the byte-string flag.  No recursion.
  | Node.Bytes _, st => { st with bytesv3 := true }
  -- visit_Constant (3.8 grammar): a bytes constant raises the flag.
  | Node.Constant isBytes, st => if isBytes then { st with bytesv3 := true } else st
  -- visit_JoinedStr: raise the f-string flag.  No recursion.
  | Node.JoinedStr _, st => { st with fstrings := true }
  -- visit_NameConstant: True/False raise the boolean-constant flag.
  | Node.NameConstant v, st =>
    (match v with
    | Option.some _ => { st with bool_const := true }
    | Option.none => st)
  -- visit_Num: pass.
  | Node.Num, st => st
  -- visit_Assign: user-define every target, record rvalue aliasing, recurse.
  | Node.Assign targets value, st =>
    let st := targets.toList.foldl add_user_def_node st
    let st := add_name_res_assign st targets.toList value
    let st := visitList cfg t targets st
    visit cfg t value st
  -- visit_AugAssign.
  | Node.AugAssign target value, st =>
    let st := add_user_def_node st target
    let st := add_name_res_assign st [target] value
    let st := visit cfg t target st
    visit cfg t value st
  -- visit_AnnAssign: as Assign, then raise both annotation flags.
  | Node.AnnAssign target ann value, st =>
    let st := add_user_def_node st target
    let st := ann_assign_rhs target value st
    let st := visit cfg t target st
    let st := visit cfg t ann st
    let st := visitOpt cfg t value st
    { st with annotations := true, var_annotations := true }
  -- visit_FunctionDef via __handle_FunctionDef: user-define the name before
  -- visiting the body; annotations post-check afterwards.
  | Node.FunctionDef name args ret body, st =>
    let st := add_user_def st name
    let st := visitArgs cfg t args st
    let st := visitList cfg t body st
    let st := visitOpt cfg t ret st
    handle_FunctionDef_post args ret st
  -- visit_AsyncFunctionDef: the coroutine flag, then as FunctionDef.
  | Node.AsyncFunctionDef name args ret body, st =>
    let st := { st with coroutines := true }
    let st := add_user_def st name
    let st := visitArgs cfg t args st
    let st := visitList cfg t body st
    let st := visitOpt cfg t ret st
    handle_FunctionDef_post args ret st
  -- visit_Await.
  | Node.Await value, st => visit cfg t value { st with coroutines := true }
  -- visit_ClassDef.
  | Node.ClassDef name bases body, st =>
    let st := add_user_def st name
    let st := visitList cfg t bases st
    visitList cfg t body st
  -- No visit_NamedExpr handler exists in the source: generic fallback.
  | Node.NamedExpr target value, st =>
    let st := visit cfg t target st
    visit cfg t value st
  -- visit_If / visit_IfExp / visit_For / visit_While / visit_Try /
  -- visit_TryExcept / visit_BoolOp: lax mode skips the whole construct.
  | Node.If test body orelse, st =>
    if cfg.lax_mode then st
    else
      let st := visit cfg t test st
      let st := visitList cfg t body st
      visitList cfg t orelse st
  | Node.IfExp test body orelse, st =>
    if cfg.lax_mode then st
    else
      let st := visit cfg t test st
      let st := visit cfg t body st
      visit cfg t orelse st
  | Node.For target iter body orelse, st =>
    if cfg.lax_mode then st
    else
      let st := visit cfg t target st
      let st := visit cfg t iter st
      let st := visitList cfg t body st
      visitList cfg t orelse st
  | Node.While test body orelse, st =>
    if cfg.lax_mode then st
    else
      let st := visit cfg t test st
      let st := visitList cfg t body st
      visitList cfg t orelse st
  | Node.Try body handlers orelse finalbody, st =>
    if cfg.lax_mode then st
    else
      let st := visitList cfg t body st
      let st := visitList cfg t handlers st
      let st := visitList cfg t orelse st
      visitList cfg t finalbody st
  | Node.TryExcept body handlers orelse, st =>
    if cfg.lax_mode then st
    else
      let st := visitList cfg t body st
      let st := visitList cfg t handlers st
      visitList cfg t orelse st
  | Node.BoolOp values, st =>
    if cfg.lax_mode then st
    else visitList cfg t values st
  -- Every other node kind: generic_visit.
  | Node.Other children, st => visitList cfg t children st
/-- Visit the nodes of a list left to right (the `generic_visit` sweep over a
list-valued field). -/
def visitList (cfg : Config) (t : Tables) : NodeList → SourceVisitor → SourceVisitor
  | NodeList.nil, st => st
  | NodeList.cons n ns, st => visitList cfg t ns (visit cfg t n st)
/-- Visit an optional child node. -/
def visitOpt (cfg : Config) (t : Tables) : OptNode → SourceVisitor → SourceVisitor
  | OptNode.none, st => st
  | OptNode.some n, st => visit cfg t n st
/-- Visit the annotation nodes under a function's `arguments` node. -/
def visitArgs (cfg : Config) (t : Tables) : ArgList → SourceVisitor → SourceVisitor
  | ArgList.nil, st => st
  | ArgList.cons _ ann rest, st => visitArgs cfg t rest (visitOpt cfg t ann st)
end

deriving instance DecidableEq for Except

/-- One table-driven loop of `minimum_versions`: for each recorded item whose
lookup yields a required Version Pair, combine it in; a conflict aborts the
whole resolution (the exception propagates). -/
def foldReqs {α : Type} (f : α → Option VersionPair) :
    List α → VersionPair → Except InvalidVersionException VersionPair
  | [], m => Except.ok m
  | x :: xs, m =>
    match f x with
    | Option.none => foldReqs f xs m
    | Option.some v =>
      match combine_versions m v with
      | Except.error e => Except.error e
      | Except.ok m2 => foldReqs f xs m2

/-- Inner sweep of the `codecs_encodings` loop: every `CODECS_ENCODINGS`
entry whose alias set contains the lower-cased encoding is combined in. -/
def foldEncodingTable (enc : String) :
    List (List String × VersionPair) → VersionPair → Except InvalidVersionException VersionPair
  | [], m => Except.ok m
  | (aliases, v) :: rest, m =>
    if strToLower enc ∈ aliases then
      match combine_versions m v with
      | Except.error e => Except.error e
      | Except.ok m2 => foldEncodingTable enc rest m2
    else foldEncodingTable enc rest m

/-- The `codecs_encodings` loop of `minimum_versions`. -/
def foldEncodings (table : List (List String × VersionPair)) :
    List String → VersionPair → Except InvalidVersionException VersionPair
  | [], m => Except.ok m
  | e :: es, m =>
    match foldEncodingTable e table m with
    | Except.error er => Except.error er
    | Except.ok m2 => foldEncodings table es m2

/-- `SourceVisitor.minimum_versions`: start from `[0, 0]` and fold in the
flag-implied pairs and the table-driven matches, in source order.  The two
direct slot assignments of the source (`mins[0] = 2.0` for the
print-statement flag, `mins[1] = 3.0` for the byte-string flag) are direct
slot assignments here too — deliberately not `combine_versions` calls. -/
def minimum_versions (t : Tables) (st : SourceVisitor) :
    Except InvalidVersionException VersionPair :=
  let m : VersionPair := (Option.some 0, Option.some 0)
  let m := if st.printv2 then (Option.some 2, m.2) else m
  (if st.printv3 then combine_versions m (Option.some 2, Option.some 3) else pure m) >>= fun m =>
  (if st.format27 then combine_versions m (Option.some (mkRat 27 10), Option.some 3)
    else pure m) >>= fun m =>
  (if st.longv2 then combine_versions m (Option.some 2, Option.none) else pure m) >>= fun m =>
  let m := if st.bytesv3 then (m.1, Option.some 3) else m
  (if st.fstrings then combine_versions m (Option.none, Option.some (mkRat 18 5))
    else pure m) >>= fun m =>
  (if st.bool_const then combine_versions m (Option.some (mkRat 11 5), Option.some 3)
    else pure m) >>= fun m =>
  (if st.annotations then combine_versions m (Option.none, Option.some 3) else pure m) >>= fun m =>
  (if st.var_annotations then combine_versions m (Option.none, Option.some (mkRat 18 5))
    else pure m) >>= fun m =>
  (if st.coroutines then combine_versions m (Option.none, Option.some (mkRat 7 2))
    else pure m) >>= fun m =>
  foldReqs (fun d => t.STRFTIME_REQS.lookup d) st.strftime_directives m >>= fun m =>
  foldReqs (fun tc => t.ARRAY_TYPECODE_REQS.lookup tc) st.array_typecodes m >>= fun m =>
  foldReqs (fun nm => t.CODECS_ERROR_HANDLERS.lookup nm) st.codecs_error_handlers m >>= fun m =>
  foldEncodings t.CODECS_ENCODINGS st.codecs_encodings m >>= fun m =>
  foldReqs (fun md => t.MOD_REQS.lookup md) st.modules m >>= fun m =>
  foldReqs (fun mem => t.MOD_MEM_REQS.lookup mem) st.members m >>= fun m =>
  foldReqs (fun kw => t.KWARGS_REQS.lookup kw) st.kwargs m

mutual
/-- Number of dispatch events (`NodeVisitor.visit` calls reaching a handler)
produced by the traversal of a subtree.  This mirrors the recursion structure
of `visit`/`visitList`/`visitOpt`/`visitArgs` case by case: one per
dispatched node, plus the dispatches of exactly the children its handler
visits — none for the handlers that do not call `generic_visit`
(`ImportFrom`, `Name`, `Attribute`, `Keyword` and the literal handlers), and
none below a conditional/loop/exception/boolean construct under lax mode. -/
def dispatchCount (lax : Bool) : Node → Nat
  | Node.Import _ => 1
  | Node.ImportFrom _ _ => 1
  | Node.Name _ => 1
  | Node.Print values => 1 + dispatchCountList lax values
  | Node.Call func args kwds =>
    1 + dispatchCount lax func + dispatchCountList lax args + dispatchCountList lax kwds
  | Node.Keyword _ _ => 1
  | Node.Attribute _ _ => 1
  | Node.Str _ => 1
  | Node.Bytes _ => 1
  | Node.JoinedStr _ => 1
  | Node.NameConstant _ => 1
  | Node.Num => 1
  | Node.Assign targets value => 1 + dispatchCountList lax targets + dispatchCount lax value
  | Node.AugAssign target value => 1 + dispatchCount lax target + dispatchCount lax value
  | Node.AnnAssign target ann value =>
    1 + dispatchCount lax target + dispatchCount lax ann + dispatchCountOpt lax value
  | Node.FunctionDef _ args ret body =>
    1 + dispatchCountArgs lax args + dispatchCountList lax body + dispatchCountOpt lax ret
  | Node.AsyncFunctionDef _ args ret body =>
    1 + dispatchCountArgs lax args + dispatchCountList lax body + dispatchCountOpt lax ret
  | Node.Await value => 1 + dispatchCount lax value
  | Node.ClassDef _ bases body => 1 + dispatchCountList lax bases + dispatchCountList lax body
  | Node.NamedExpr target value => 1 + dispatchCount lax target + dispatchCount lax value
  | Node.If test body orelse =>
    1 + (if lax then 0
      else dispatchCount lax test + dispatchCountList lax body + dispatchCountList lax orelse)
  | Node.IfExp test body orelse =>
    1 + (if lax then 0
      else dispatchCount lax test + dispatchCount lax body + dispatchCount lax orelse)
  | Node.For target iter body orelse =>
    1 + (if lax then 0
      else dispatchCount lax target + dispatchCount lax iter + dispatchCountList lax body +
        dispatchCountList lax orelse)
  | Node.While test body orelse =>
    1 + (if lax then 0
      else dispatchCount lax test + dispatchCountList lax body + dispatchCountList lax orelse)
  | Node.Try body handlers orelse finalbody =>
    1 + (if lax then 0
      else dispatchCountList lax body + dispatchCountList lax handlers +
        dispatchCountList lax orelse + dispatchCountList lax finalbody)
  | Node.TryExcept body handlers orelse =>
    1 + (if lax then 0
      else dispatchCountList lax body + dispatchCountList lax handlers +
        dispatchCountList lax orelse)
  | Node.BoolOp values => 1 + (if lax then 0 else dispatchCountList lax values)
  | Node.Constant _ => 1
  | Node.Other children => 1 + dispatchCountList lax children
/-- Dispatch count over a node list. -/
def dispatchCountList (lax : Bool) : NodeList → Nat
  | NodeList.nil => 0
  | NodeList.cons n ns => dispatchCount lax n + dispatchCountList lax ns
/-- Dispatch count over an optional node. -/
def dispatchCountOpt (lax : Bool) : OptNode → Nat
  | OptNode.none => 0
  | OptNode.some n => dispatchCount lax n
/-- Dispatch count over a formal-argument list. -/
def dispatchCountArgs (lax : Bool) : ArgList → Nat
  | ArgList.nil => 0
  | ArgList.cons _ ann rest => dispatchCountOpt lax ann + dispatchCountArgs lax rest
end

/-- The suppression invariant of the Symbol Shadowing Tracker for one
spelling: the name is user-defined, and no Module or Member observation with
that exact spelling is present. -/
def UserDefined (name : String) (st : SourceVisitor) : Prop :=
  name ∈ st.user_defs ∧ name ∉ st.modules ∧ name ∉ st.members

/-- Strict (non-lax) configuration. -/
def cfgStrict : Config := { lax_mode := false }

/-- Lax configuration. -/
def cfgLax : Config := { lax_mode := true }

/-- The unit `datetime.strftime("%Y %Y")`-style call, wrapped in a module
node: it records the `%Y` directive twice. -/
def strftimeDupUnit : Node :=
  Node.Other (nl [Node.Call (Node.Attribute (Node.Name ("d")) ("strftime"))
    (nl [Node.Str ("%Y %Y")]) NodeList.nil])

/-- The unit `s = b'hello'` (mirroring `test_bytesv3`), wrapped in a module
node. -/
def bytesUnit : Node :=
  Node.Other (nl [Node.Assign (nl [Node.Name ("s")]) (Node.Bytes ("hello"))])

/-- The unit of `test_named_expressions`:
`a = 1` followed by `if (b := a) == 1: print(b)` — the comparison is a
`Compare` node (no handler) holding the 3.8 walrus `NamedExpr` node. -/
def walrusUnit : Node :=
  Node.Other (nl [
    Node.Assign (nl [Node.Name ("a")]) Node.Num,
    Node.If (Node.Other (nl [Node.NamedExpr (Node.Name ("b")) (Node.Name ("a")), Node.Num]))
      (nl [Node.Other (nl [Node.Call (Node.Name ("print")) (nl [Node.Name ("b")]) NodeList.nil])])
      NodeList.nil])

/-- A state holding one entry in each of the three observation sets whose
insert operation is de-duplicating. -/
def stC3 : SourceVisitor :=
  { SourceVisitor.init with
    modules := [("abc")]
    kwargs := [(("os.open"), Option.some ("dir_fd"))]
    array_typecodes := [("u")] }

/-! ## Theorems -/

theorem mergeSlot_none_left (v : Option ℚ) : mergeSlot Option.none v = Option.none := by
  rcases v with _ | a
  · simp [mergeSlot]
  · by_cases h : a = 0 <;> simp [mergeSlot, h]

theorem mergeSlot_none_right (v : Option ℚ) : mergeSlot v Option.none = Option.none := by
  rcases v with _ | a
  · simp [mergeSlot]
  · by_cases h : a = 0 <;> simp [mergeSlot, h]

theorem mergeSlot_zero_left (v : Option ℚ) : mergeSlot (Option.some 0) v = v := by
  rcases v with _ | a
  · simp [mergeSlot]
  · by_cases h : a = 0 <;> simp [mergeSlot, h]

theorem mergeSlot_zero_right (v : Option ℚ) : mergeSlot v (Option.some 0) = v := by
  rcases v with _ | a
  · simp [mergeSlot]
  · by_cases h : a = 0 <;> simp [mergeSlot, h]

theorem mergeSlot_some_some {a b : ℚ} (ha : a ≠ 0) (hb : b ≠ 0) :
    mergeSlot (Option.some a) (Option.some b) = Option.some (max a b) := by
  simp [mergeSlot, ha, hb]

theorem mergeSlot_eq_none {v1 v2 : Option ℚ} :
    mergeSlot v1 v2 = Option.none ↔ v1 = Option.none ∨ v2 = Option.none := by
  constructor
  · intro h
    rcases v1 with _ | a
    · exact Or.inl rfl
    · rcases v2 with _ | b
      · exact Or.inr rfl
      · by_cases ha : a = 0 <;> by_cases hb : b = 0 <;> simp_all [mergeSlot]
  · intro h
    rcases h with h | h <;> subst h
    · exact mergeSlot_none_left v2
    · exact mergeSlot_none_right v1

theorem mergeSlot_comm (v1 v2 : Option ℚ) : mergeSlot v1 v2 = mergeSlot v2 v1 := by
  rcases v1 with _ | a
  · rw [mergeSlot_none_left, mergeSlot_none_right]
  · rcases v2 with _ | b
    · rw [mergeSlot_none_left, mergeSlot_none_right]
    · by_cases ha : a = 0 <;> by_cases hb : b = 0 <;>
        simp_all [mergeSlot, max_comm a b]

theorem mergeSlot_ne_zero {a b : ℚ} (ha : a ≠ 0) (hb : b ≠ 0) : max a b ≠ 0 := by
  rcases max_choice a b with h | h <;> rw [h] <;> assumption

theorem mergeSlot_assoc (v1 v2 v3 : Option ℚ) :
    mergeSlot (mergeSlot v1 v2) v3 = mergeSlot v1 (mergeSlot v2 v3) := by
  by_cases h1 : v1 = Option.some 0
  · subst h1; rw [mergeSlot_zero_left, mergeSlot_zero_left]
  by_cases h2 : v2 = Option.some 0
  · subst h2; rw [mergeSlot_zero_right, mergeSlot_zero_left]
  by_cases h3 : v3 = Option.some 0
  · subst h3; rw [mergeSlot_zero_right, mergeSlot_zero_right]
  rcases v1 with _ | a
  · simp only [mergeSlot_none_left]
  rcases v2 with _ | b
  · simp only [mergeSlot_none_left, mergeSlot_none_right]
  rcases v3 with _ | c
  · simp only [mergeSlot_none_right]
  have ha : a ≠ 0 := fun h => h1 (by rw [h])
  have hb : b ≠ 0 := fun h => h2 (by rw [h])
  have hc : c ≠ 0 := fun h => h3 (by rw [h])
  rw [mergeSlot_some_some ha hb, mergeSlot_some_some hb hc,
    mergeSlot_some_some (mergeSlot_ne_zero ha hb) hc,
    mergeSlot_some_some ha (mergeSlot_ne_zero hb hc), max_assoc]

theorem bind_error_eq {α : Type} (e : InvalidVersionException)
    (f : α → Except InvalidVersionException α) :
    (Except.error e >>= f) = Except.error e := rfl

theorem bind_ok_eq {α : Type} (x : α) (f : α → Except InvalidVersionException α) :
    (Except.ok x >>= f) = f x := rfl

theorem combine_versions_eq_error {v1 v2 : VersionPair}
    (h : (v1.1 = Option.none ∧ v2.2 = Option.none) ∨
      (v1.2 = Option.none ∧ v2.1 = Option.none)) :
    combine_versions v1 v2 = Except.error InvalidVersionException.mk := by
  unfold combine_versions
  rw [if_pos h]

theorem combine_versions_eq_ok {v1 v2 : VersionPair}
    (h : ¬ ((v1.1 = Option.none ∧ v2.2 = Option.none) ∨
      (v1.2 = Option.none ∧ v2.1 = Option.none))) :
    combine_versions v1 v2 = Except.ok (mergeSlot v1.1 v2.1, mergeSlot v1.2 v2.2) := by
  unfold combine_versions
  rw [if_neg h]

/-- The cross-exclusion conflict condition of `combine_versions`. -/
theorem combine_versions_comm (a b : VersionPair) :
    combine_versions a b = combine_versions b a := by
  unfold combine_versions
  by_cases h : (a.1 = Option.none ∧ b.2 = Option.none) ∨ (a.2 = Option.none ∧ b.1 = Option.none)
  · rw [if_pos h, if_pos (Or.symm (h.imp And.symm And.symm))]
  · rw [if_neg h, if_neg (fun hc => h (Or.symm (hc.imp And.symm And.symm))),
      mergeSlot_comm a.1 b.1, mergeSlot_comm a.2 b.2]

theorem combine_versions_assoc (a b c : VersionPair) :
    (combine_versions a b >>= fun ab => combine_versions ab c) =
      (combine_versions b c >>= fun bc => combine_versions a bc) := by
  have key : ((a.1 = Option.none ∧ b.2 = Option.none) ∨ (a.2 = Option.none ∧ b.1 = Option.none)) ∨
      ((mergeSlot a.1 b.1 = Option.none ∧ c.2 = Option.none) ∨
        (mergeSlot a.2 b.2 = Option.none ∧ c.1 = Option.none)) ↔
      ((b.1 = Option.none ∧ c.2 = Option.none) ∨ (b.2 = Option.none ∧ c.1 = Option.none)) ∨
      ((a.1 = Option.none ∧ mergeSlot b.2 c.2 = Option.none) ∨
        (a.2 = Option.none ∧ mergeSlot b.1 c.1 = Option.none)) := by
    simp only [mergeSlot_eq_none]
    tauto
  by_cases hab : (a.1 = Option.none ∧ b.2 = Option.none) ∨ (a.2 = Option.none ∧ b.1 = Option.none)
  · by_cases hbc : (b.1 = Option.none ∧ c.2 = Option.none) ∨ (b.2 = Option.none ∧ c.1 = Option.none)
    · rw [combine_versions_eq_error hab, combine_versions_eq_error hbc,
        bind_error_eq, bind_error_eq]
    · have habc2 : (a.1 = Option.none ∧ (mergeSlot b.2 c.2) = Option.none) ∨
          (a.2 = Option.none ∧ (mergeSlot b.1 c.1) = Option.none) := by
        have h2 := key.mp (Or.inl hab)
        tauto
      rw [combine_versions_eq_error hab, combine_versions_eq_ok hbc,
        bind_error_eq, bind_ok_eq, combine_versions_eq_error habc2]
  · rw [combine_versions_eq_ok hab, bind_ok_eq]
    by_cases habc : ((mergeSlot a.1 b.1) = Option.none ∧ c.2 = Option.none) ∨
        ((mergeSlot a.2 b.2) = Option.none ∧ c.1 = Option.none)
    · rw [combine_versions_eq_error habc]
      have hr := key.mp (Or.inr habc)
      by_cases hbc : (b.1 = Option.none ∧ c.2 = Option.none) ∨
          (b.2 = Option.none ∧ c.1 = Option.none)
      · rw [combine_versions_eq_error hbc, bind_error_eq]
      · have habc2 : (a.1 = Option.none ∧ (mergeSlot b.2 c.2) = Option.none) ∨
            (a.2 = Option.none ∧ (mergeSlot b.1 c.1) = Option.none) := hr.resolve_left hbc
        rw [combine_versions_eq_ok hbc, bind_ok_eq, combine_versions_eq_error habc2]
    · have hr : ¬ (((b.1 = Option.none ∧ c.2 = Option.none) ∨
          (b.2 = Option.none ∧ c.1 = Option.none)) ∨
          ((a.1 = Option.none ∧ mergeSlot b.2 c.2 = Option.none) ∨
            (a.2 = Option.none ∧ mergeSlot b.1 c.1 = Option.none))) := by
        intro hcon
        exact (not_or.mpr ⟨hab, habc⟩) (key.mpr hcon)
      have hbc : ¬ ((b.1 = Option.none ∧ c.2 = Option.none) ∨
          (b.2 = Option.none ∧ c.1 = Option.none)) := fun h => hr (Or.inl h)
      have habc2 : ¬ ((a.1 = Option.none ∧ (mergeSlot b.2 c.2) = Option.none) ∨
          (a.2 = Option.none ∧ (mergeSlot b.1 c.1) = Option.none)) := fun h => hr (Or.inr h)
      rw [combine_versions_eq_ok habc, combine_versions_eq_ok hbc, bind_ok_eq,
        combine_versions_eq_ok habc2]
      simp only [mergeSlot_assoc]



/-! ### Validation against the repository's test suite

Concrete evaluations of the embedding on the scenarios of
`src/tests/general.py`, checked by kernel computation.  (The
`AssertionError` case of `test_combine_versions` concerns mis-sized lists
and cannot arise here: a `VersionPair` is a pair by construction.) -/

theorem model_test_combine_versions :
    combine_versions (Option.some 2, Option.some 3) (Option.some 2, Option.some (mkRat 31 10)) =
        Except.ok (Option.some 2, Option.some (mkRat 31 10)) ∧
      combine_versions (Option.some (mkRat 21 10), Option.some 3) (Option.some 2, Option.some 3) =
        Except.ok (Option.some (mkRat 21 10), Option.some 3) ∧
      combine_versions (Option.some 2, Option.some 3) (Option.none, Option.some 3) =
        Except.ok (Option.none, Option.some 3) ∧
      combine_versions (Option.some 2, Option.none) (Option.some 2, Option.some 3) =
        Except.ok (Option.some 2, Option.none) ∧
      combine_versions (Option.some 2, Option.some 3) (Option.none, Option.none) =
        Except.ok (Option.none, Option.none) ∧
      combine_versions (Option.none, Option.none) (Option.some 2, Option.some 3) =
        Except.ok (Option.none, Option.none) ∧
      combine_versions (Option.some 2, Option.none) (Option.none, Option.some 3) =
        Except.error InvalidVersionException.mk ∧
      combine_versions (Option.none, Option.some 3) (Option.some 2, Option.none) =
        Except.error InvalidVersionException.mk ∧
      combine_versions (Option.some 0, Option.some 3) (Option.some 0, Option.some 3) =
        Except.ok (Option.some 0, Option.some 3) ∧
      combine_versions (Option.some 0, Option.some 3) (Option.some 2, Option.some 3) =
        Except.ok (Option.some 2, Option.some 3) ∧
      combine_versions (Option.some 2, Option.some 3) (Option.some 0, Option.some 3) =
        Except.ok (Option.some 2, Option.some 3) ∧
      combine_versions (Option.some 2, Option.some 0) (Option.some 2, Option.some 3) =
        Except.ok (Option.some 2, Option.some 3) ∧
      combine_versions (Option.some 2, Option.some 3) (Option.some 2, Option.some 0) =
        Except.ok (Option.some 2, Option.some 3) := by
  refine ⟨?_, ?_, ?_, ?_, ?_, ?_, ?_, ?_, ?_, ?_, ?_, ?_, ?_⟩ <;> decide

theorem model_test_dotted_name :
    dotted_name [DotPart.s ("hello"), DotPart.s ("world")] = ("hello.world") ∧
      dotted_name [DotPart.s ("foo"), DotPart.l [("bar"), ("baz")], DotPart.s ("boom")] =
        ("foo.bar.baz.boom") := by
  decide

theorem model_test_modules :
    (visit cfgStrict Tables.empty (Node.Other (nl [
        Node.Import [(("ast"), Option.none)],
        Node.Import [(("sys"), Option.none), (("argparse"), Option.none)],
        Node.ImportFrom (Option.some ("os")) [(("*"), Option.none)]]))
      SourceVisitor.init).modules = [("ast"), ("sys"), ("argparse"), ("os")] := by
  decide

theorem model_test_member_class :
    (visit cfgStrict
        { Tables.empty with MOD_MEM_REQS := [(("abc.ABC"), (Option.some (mkRat 13 5), Option.some 3))] }
        (Node.ImportFrom (Option.some ("abc")) [(("ABC"), Option.none)])
      SourceVisitor.init).members = [("abc.ABC")] := by
  decide

theorem model_test_strftime_directives :
    (visit cfgStrict Tables.empty (Node.Other (nl [
        Node.ImportFrom (Option.some ("datetime")) [(("datetime"), Option.none)],
        Node.Other (nl [Node.Call
          (Node.Attribute (Node.Call (Node.Attribute (Node.Name ("datetime")) ("now"))
            NodeList.nil NodeList.nil) ("strftime"))
          (nl [Node.Str ("%A %d. %B %Y")]) NodeList.nil])]))
      SourceVisitor.init).strftime_directives = [("%A"), ("%d"), ("%B"), ("%Y")] := by
  decide

theorem model_test_user_defined :
    (visit cfgStrict Tables.empty (Node.Other (nl [
        Node.FunctionDef ("hello") ArgList.nil OptNode.none (nl [Node.Other NodeList.nil]),
        Node.Other (nl [Node.Call (Node.Name ("hello2")) NodeList.nil NodeList.nil]),
        Node.ClassDef ("foo") NodeList.nil (nl [Node.Other NodeList.nil])]))
      SourceVisitor.init).user_defs = [("hello"), ("foo")] := by
  decide

theorem model_test_ignore_members_when_user_defined :
    (visit cfgStrict
        { Tables.empty with MOD_MEM_REQS := [(("next"), (Option.some (mkRat 13 5), Option.some 3))] }
        (Node.Other (nl [
          Node.FunctionDef ("next") ArgList.nil OptNode.none (nl [Node.Other NodeList.nil]),
          Node.Other (nl [Node.Call (Node.Name ("next")) NodeList.nil NodeList.nil])]))
      SourceVisitor.init).members = [] := by
  decide

theorem model_test_ignore_modules_when_user_defined :
    (visit cfgStrict Tables.empty (Node.Other (nl [
        Node.Import [(("SimpleXMLRPCServer"), Option.none)],
        Node.FunctionDef ("SimpleXMLRPCServer") ArgList.nil OptNode.none
          (nl [Node.Other NodeList.nil]),
        Node.Assign (nl [Node.Name ("src")])
          (Node.Call (Node.Name ("SimpleXMLRPCServer")) NodeList.nil NodeList.nil)]))
      SourceVisitor.init).modules = [] := by
  decide

theorem model_test_fstrings :
    minimum_versions Tables.empty
        (visit cfgStrict Tables.empty
          (Node.Other (nl [Node.JoinedStr (nl [Node.Str ("hello ")])]))
          SourceVisitor.init) =
      Except.ok (Option.none, Option.some (mkRat 18 5)) := by
  decide

theorem model_test_member_kwargs :
    (visit cfgStrict
        { Tables.empty with
          KWARGS_REQS := [(((("os.open"), Option.some ("dir_fd"))),
            (Option.none, Option.some 3))] }
        (Node.Other (nl [
          Node.ImportFrom (Option.some ("os")) [(("open"), Option.none)],
          Node.Assign (nl [Node.Name ("fd")])
            (Node.Call (Node.Name ("open")) NodeList.nil
              (nl [Node.Keyword (Option.some ("dir_fd")) (Node.NameConstant Option.none)]))]))
      SourceVisitor.init).kwargs = [(("os.open"), Option.some ("dir_fd"))] := by
  decide

/-! ### Faithfulness of the breadth-first walk

`walk` runs with fuel `Node.size node`.  The lemmas below check that the
fuel accounting is exact: `nodeChildren` and `Node.size` are consistent
(each node is one unit plus its children), and `walkAux` is insensitive to
any extra fuel once the fuel covers the queue's node count — so the
enumeration with the chosen fuel is the complete breadth-first walk. -/

theorem sumMap_toList (ns : NodeList) :
    (ns.toList.map Node.size).sum = NodeList.sizeL ns := by
  induction ns using NodeList.toList.induct with
  | case1 => rfl
  | case2 n tl ih =>
    simp only [NodeList.toList, List.map, List.sum_cons, NodeList.sizeL, ih]

theorem qsize_toList (ns : NodeList) : qsize ns.toList = NodeList.sizeL ns :=
  sumMap_toList ns

theorem qsize_append (a b : List Node) : qsize (a ++ b) = qsize a + qsize b := by
  simp [qsize]

theorem sumMap_argAnnList (args : ArgList) :
    ((nodeChildren.argAnnList args).map Node.size).sum = ArgList.sizeA args := by
  induction args using nodeChildren.argAnnList.induct with
  | case1 => rfl
  | case2 nm rest ih =>
    simp only [nodeChildren.argAnnList, ArgList.sizeA, OptNode.sizeO, ih]
    omega
  | case3 nm a rest ih =>
    simp only [nodeChildren.argAnnList, ArgList.sizeA, OptNode.sizeO, List.map, List.sum_cons,
      ih]

theorem qsize_nil : qsize [] = 0 := rfl

theorem qsize_cons (n : Node) (l : List Node) :
    qsize (n :: l) = Node.size n + qsize l := by
  simp [qsize]

theorem qsize_argAnnList (args : ArgList) :
    qsize (nodeChildren.argAnnList args) = ArgList.sizeA args :=
  sumMap_argAnnList args

theorem size_children (n : Node) : qsize (nodeChildren n) + 1 = Node.size n := by
  cases n <;>
    simp only [nodeChildren, Node.size, qsize_nil, qsize_cons, qsize_append, qsize_toList,
      qsize_argAnnList] <;>
    first
      | omega
      | (rename_i v
         cases v <;>
           simp only [qsize_nil, qsize_cons, qsize_append, qsize_toList, qsize_argAnnList,
             OptNode.sizeO] <;>
           omega)
      | (rename_i r b
         cases r <;>
           simp only [qsize_nil, qsize_cons, qsize_append, qsize_toList, qsize_argAnnList,
             OptNode.sizeO] <;>
           omega)

theorem size_pos (n : Node) : 1 ≤ Node.size n := by
  have h := size_children n
  omega

theorem walkAux_nil (fuel : Nat) : walkAux fuel [] = [] := by
  cases fuel <;> rfl

theorem qsize_eq_zero {q : List Node} (h : qsize q = 0) : q = [] := by
  cases q with
  | nil => rfl
  | cons n rest =>
    exfalso
    have h1 := size_pos n
    simp only [qsize, List.map, List.sum_cons] at h
    omega

theorem walkAux_fuel_irrelevant :
    ∀ (fuel k : Nat) (q : List Node), qsize q ≤ fuel →
      walkAux (fuel + k) q = walkAux fuel q := by
  intro fuel
  induction fuel with
  | zero =>
    intro k q h
    have hq : q = [] := qsize_eq_zero (Nat.le_zero.mp h)
    subst hq
    rw [walkAux_nil, walkAux_nil]
  | succ f ih =>
    intro k q h
    cases q with
    | nil => rw [walkAux_nil, walkAux_nil]
    | cons n rest =>
      have hstep : f + 1 + k = (f + k) + 1 := by omega
      rw [hstep]
      show n :: walkAux (f + k) (rest ++ nodeChildren n) =
        n :: walkAux f (rest ++ nodeChildren n)
      have hsz : qsize (rest ++ nodeChildren n) ≤ f := by
        have h1 := size_children n
        have h2 : qsize (n :: rest) = Node.size n + qsize rest := by
          simp [qsize]
        rw [qsize_append]
        omega
      rw [ih k _ hsz]

/-- The chosen fuel is exact: giving `walk` any extra fuel changes nothing,
so the fuel-based breadth-first enumeration is complete. -/
theorem walk_complete (n : Node) (extra : Nat) :
    walkAux (Node.size n + extra) [n] = walk n := by
  unfold walk
  apply walkAux_fuel_irrelevant
  simp [qsize]

/-! ### The user-defined suppression invariant (C4)

`UserDefined name st` is preserved by every primitive state operation and
established by `add_user_def name`; by mutual induction it is preserved by
the whole traversal. -/

theorem UD_user_defs {name : String} {st : SourceVisitor} (h : UserDefined name st) :
    name ∈ st.user_defs := h.1

theorem UD_not_modules {name : String} {st : SourceVisitor} (h : UserDefined name st) :
    name ∉ st.modules := h.2.1

theorem UD_not_members {name : String} {st : SourceVisitor} (h : UserDefined name st) :
    name ∉ st.members := h.2.2

theorem UD_mk {name : String} (modules members : List String)
    (p2 p3 f27 l2 b3 fs bc an va co : Bool) (fn : Option String)
    (kw : List (String × Option String)) (sd ce cc : List String)
    (imm nr : List (String × String)) (uds atc : List String)
    (man : List (String × String))
    (h1 : name ∈ uds) (h2 : name ∉ modules) (h3 : name ∉ members) :
    UserDefined name
      (SourceVisitor.mk modules members p2 p3 f27 l2 b3 fs bc an va co fn kw sd ce cc
        imm nr uds atc man) :=
  ⟨h1, h2, h3⟩

theorem UD_filterfold_subset :
    ∀ (uds ms : List String) {x : String},
      x ∈ List.foldl (fun ms2 ud => ms2.filter (fun m => m ≠ ud)) ms uds → x ∈ ms := by
  intro uds
  induction uds with
  | nil => intro ms x h; exact h
  | cons u us ih =>
    intro ms x h
    exact (List.mem_filter.mp (ih _ h)).1

theorem UD_filterfold_not_mem :
    ∀ (uds ms : List String) {x : String},
      x ∈ uds → x ∉ List.foldl (fun ms2 ud => ms2.filter (fun m => m ≠ ud)) ms uds := by
  intro uds
  induction uds with
  | nil => intro ms x h; cases h
  | cons u us ih =>
    intro ms x hx hmem
    rcases List.mem_cons.mp hx with rfl | hx2
    · have h2 := (List.mem_filter.mp (UD_filterfold_subset us _ hmem)).2
      simp at h2
    · exact ih _ hx2 hmem

theorem UD_add_user_def {name : String} {st : SourceVisitor}
    (h : UserDefined name st) (x : String) : UserDefined name (add_user_def st x) := by
  obtain ⟨h1, h2, h3⟩ := h
  unfold add_user_def
  split
  · exact ⟨h1, fun hc => h2 (UD_filterfold_subset _ _ hc),
      fun hc => h3 (UD_filterfold_subset _ _ hc)⟩
  · refine ⟨List.mem_append_left _ h1, ?_, ?_⟩
    · intro hc
      exact h2 (UD_filterfold_subset _ _ hc)
    · intro hc
      exact h3 (UD_filterfold_subset _ _ hc)

theorem UD_add_user_def_self (name : String) (st : SourceVisitor) :
    UserDefined name (add_user_def st name) := by
  unfold add_user_def
  split
  next hin =>
    exact ⟨hin, UD_filterfold_not_mem _ _ hin, UD_filterfold_not_mem _ _ hin⟩
  next hout =>
    have hin2 : name ∈ st.user_defs ++ [name] := List.mem_append_right _ (List.mem_singleton.mpr rfl)
    exact ⟨hin2, UD_filterfold_not_mem _ _ hin2, UD_filterfold_not_mem _ _ hin2⟩

theorem UD_add_module {name : String} {st : SourceVisitor}
    (h : UserDefined name st) (m : String) : UserDefined name (add_module st m) := by
  obtain ⟨h1, h2, h3⟩ := h
  unfold add_module
  split_ifs with hud hmod
  · exact ⟨h1, h2, h3⟩
  · exact ⟨h1, h2, h3⟩
  · refine ⟨h1, ?_, h3⟩
    simp only [List.mem_append, List.mem_singleton]
    rintro (hc | rfl)
    · exact h2 hc
    · exact hud h1

theorem UD_add_member {name : String} {st : SourceVisitor}
    (h : UserDefined name st) (t : Tables) (mem : String) :
    UserDefined name (add_member t st mem) := by
  obtain ⟨h1, h2, h3⟩ := h
  unfold add_member
  split_ifs with hud hreq
  · exact ⟨h1, h2, h3⟩
  · refine ⟨h1, h2, ?_⟩
    simp only [List.mem_append, List.mem_singleton]
    rintro (hc | rfl)
    · exact h3 hc
    · exact hud h1
  · exact ⟨h1, h2, h3⟩

theorem UD_add_kwargs {name : String} {st : SourceVisitor}
    (h : UserDefined name st) (t : Tables) (fn : String) (kw : Option String) :
    UserDefined name (add_kwargs t st fn kw) := by
  unfold add_kwargs
  split_ifs <;> exact ⟨h.1, h.2.1, h.2.2⟩

theorem UD_add_strftime_directive {name : String} {st : SourceVisitor}
    (h : UserDefined name st) (g : String) :
    UserDefined name (add_strftime_directive st g) :=
  ⟨h.1, h.2.1, h.2.2⟩

theorem UD_add_array_typecode {name : String} {st : SourceVisitor}
    (h : UserDefined name st) (tc : String) :
    UserDefined name (add_array_typecode st tc) := by
  unfold add_array_typecode
  split_ifs <;> exact ⟨h.1, h.2.1, h.2.2⟩

theorem UD_add_name_res {name : String} {st : SourceVisitor}
    (h : UserDefined name st) (src tgt : String) :
    UserDefined name (add_name_res st src tgt) :=
  ⟨h.1, h.2.1, h.2.2⟩

theorem UD_foldl {α : Type} {name : String} {f : SourceVisitor → α → SourceVisitor}
    (hf : ∀ s x, UserDefined name s → UserDefined name (f s x)) :
    ∀ (l : List α) (s : SourceVisitor),
      UserDefined name s → UserDefined name (List.foldl f s l) := by
  intro l
  induction l with
  | nil => intro s h; exact h
  | cons x xs ih => intro s h; exact ih (f s x) (hf s x h)

theorem UD_codecs_err_kw_step {name : String} (s : SourceVisitor) (kw : Node)
    (h : UserDefined name s) : UserDefined name (codecs_err_kw_step s kw) := by
  unfold codecs_err_kw_step
  repeat' split
  all_goals exact ⟨h.1, h.2.1, h.2.2⟩

theorem UD_codecs_enc_kw_step {name : String} (s : SourceVisitor) (kw : Node)
    (h : UserDefined name s) : UserDefined name (codecs_enc_kw_step s kw) := by
  unfold codecs_enc_kw_step
  repeat' split
  all_goals exact ⟨h.1, h.2.1, h.2.2⟩

theorem UD_codecs_enc_idx_step {name : String} (args kws : List Node) (s : SourceVisitor)
    (idx : Int) (h : UserDefined name s) :
    UserDefined name (codecs_enc_idx_step args kws s idx) := by
  unfold codecs_enc_idx_step
  apply UD_foldl (fun s2 kw2 h2 => UD_codecs_enc_kw_step s2 kw2 h2)
  repeat' split
  all_goals exact ⟨h.1, h.2.1, h.2.2⟩

theorem UD_add_codecs_error_handler {name : String} (t : Tables) (st : SourceVisitor)
    (fn : String) (args kws : List Node) (h : UserDefined name st) :
    UserDefined name (add_codecs_error_handler t st fn args kws) := by
  unfold add_codecs_error_handler
  split
  · exact h
  · apply UD_foldl (fun s2 kw2 h2 => UD_codecs_err_kw_step s2 kw2 h2)
    repeat' split
    all_goals exact ⟨h.1, h.2.1, h.2.2⟩

theorem UD_add_codecs_encoding {name : String} (t : Tables) (st : SourceVisitor)
    (fn : String) (args kws : List Node) (h : UserDefined name st) :
    UserDefined name (add_codecs_encoding t st fn args kws) := by
  unfold add_codecs_encoding
  split
  · exact h
  · exact UD_foldl (fun s2 i h2 => UD_codecs_enc_idx_step args kws s2 i h2) _ _ h

theorem UD_check_codecs_function {name : String} (t : Tables) (st : SourceVisitor)
    (fn : String) (args kws : List Node) (h : UserDefined name st) :
    UserDefined name (check_codecs_function t st fn args kws) :=
  UD_add_codecs_encoding t _ fn args kws
    (UD_add_codecs_error_handler t st fn args kws h)

theorem UD_import_alias_step {name : String} (t : Tables) (s : SourceVisitor)
    (nm : String × Option String) (h : UserDefined name s) :
    UserDefined name (import_alias_step t s nm) := by
  unfold import_alias_step
  have h2 := UD_add_member (UD_add_module h nm.1) t nm.1
  split
  · exact ⟨h2.1, h2.2.1, h2.2.2⟩
  · exact h2

theorem UD_import_from_alias_step {name : String} (t : Tables) (mname : String)
    (s : SourceVisitor) (nm : String × Option String) (h : UserDefined name s) :
    UserDefined name (import_from_alias_step t mname s nm) := by
  unfold import_from_alias_step
  split_ifs with hstar
  · split
    · exact ⟨h.1, h.2.1, h.2.2⟩
    · exact h
  · have h1 : UserDefined name
        { s with import_mem_mod := (nm.1, mname) :: s.import_mem_mod } :=
      ⟨h.1, h.2.1, h.2.2⟩
    have h2 := UD_add_member (UD_add_member
      (UD_add_module h1 (mname ++ (".") ++ nm.1)) t (mname ++ (".") ++ nm.1)) t nm.1
    split
    · exact ⟨h2.1, h2.2.1, h2.2.2⟩
    · exact h2

theorem UD_array_arg_step {name : String} (s : SourceVisitor) (a : Node)
    (h : UserDefined name s) : UserDefined name (array_arg_step s a) := by
  unfold array_arg_step
  split
  · exact UD_add_array_typecode h _
  · exact h

theorem UD_strftime_arg_step {name : String} (s : SourceVisitor) (arg : Node)
    (h : UserDefined name s) : UserDefined name (strftime_arg_step s arg) := by
  unfold strftime_arg_step
  split
  · exact UD_foldl (fun s2 g h2 => UD_add_strftime_directive h2 g) _ _ h
  · exact h

theorem UD_name_res_target_step {name : String} (vn : String) (s : SourceVisitor)
    (tg : Node) (h : UserDefined name s) :
    UserDefined name (name_res_target_step vn s tg) := by
  unfold name_res_target_step
  split
  · exact UD_add_name_res h _ _
  · exact h

theorem UD_add_name_res_assign {name : String} (st : SourceVisitor)
    (targets : List Node) (value : Node) (h : UserDefined name st) :
    UserDefined name (add_name_res_assign st targets value) := by
  unfold add_name_res_assign
  split
  · exact h
  · exact UD_foldl (fun s2 tg h2 => UD_name_res_target_step _ s2 tg h2) _ _ h

theorem UD_add_user_def_node {name : String} (st : SourceVisitor) (node : Node)
    (h : UserDefined name st) : UserDefined name (add_user_def_node st node) := by
  unfold add_user_def_node
  split
  · exact UD_add_user_def h _
  · exact h

theorem UD_attrModStep {name : String} (t : Tables) (fn0 : String) (rest : List String)
    (dn : String) (st : SourceVisitor) (m : String) (h : UserDefined name st) :
    UserDefined name (attrModStep t fn0 rest dn st m) := by
  unfold attrModStep
  split_ifs
  · exact UD_add_module h dn
  · exact UD_add_member h t _
  · exact h

theorem UD_visit_attribute_modules {name : String} (t : Tables) (fn0 : String)
    (rest : List String) (dn : String) (st : SourceVisitor) (h : UserDefined name st) :
    UserDefined name (visit_attribute_modules t fn0 rest dn st) := by
  simp only [visit_attribute_modules]
  have h2 := UD_foldl (fun s2 m h3 => UD_attrModStep t fn0 rest dn s2 m h3)
    st.modules st h
  split_ifs
  · exact UD_attrModStep t fn0 rest dn _ dn h2
  · exact h2

theorem UD_keyword_stage_imm_fn {name : String} (t : Tables) (arg : Option String)
    (fn : String) (st : SourceVisitor) (h : UserDefined name st) :
    UserDefined name (keyword_stage_imm_fn t arg fn st) := by
  unfold keyword_stage_imm_fn
  split
  · exact UD_add_kwargs h t _ arg
  · exact h

theorem UD_keyword_stage_imm_head {name : String} (t : Tables) (arg : Option String)
    (fn : String) (exp : List String) (st : SourceVisitor) (h : UserDefined name st) :
    UserDefined name (keyword_stage_imm_head t arg fn exp st) := by
  unfold keyword_stage_imm_head
  split
  · exact UD_add_kwargs h t _ arg
  · exact h

theorem UD_keyword_stage_name_res {name : String} (t : Tables) (arg : Option String)
    (exp : List String) (st : SourceVisitor) (h : UserDefined name st) :
    UserDefined name (keyword_stage_name_res t arg exp st) := by
  unfold keyword_stage_name_res
  split
  · split
    · exact UD_add_kwargs h t _ arg
    · exact UD_add_kwargs h t _ arg
  · exact h

theorem UD_keyword_checks_fn {name : String} (t : Tables) (arg : Option String)
    (fn : String) (st : SourceVisitor) (h : UserDefined name st) :
    UserDefined name (keyword_checks_fn t arg fn st) :=
  UD_keyword_stage_name_res t arg _ _
    (UD_keyword_stage_imm_head t arg fn _ _
      (UD_keyword_stage_imm_fn t arg fn _ (UD_add_kwargs h t fn arg)))

theorem UD_keyword_checks {name : String} (t : Tables) (arg : Option String)
    (st : SourceVisitor) (h : UserDefined name st) :
    UserDefined name (keyword_checks t arg st) := by
  unfold keyword_checks
  split
  · exact h
  · exact UD_keyword_checks_fn t arg _ st h

theorem UD_attribute_checks {name : String} (t : Tables) (node : Node)
    (st : SourceVisitor) (h : UserDefined name st) :
    UserDefined name (attribute_checks t node st) := by
  simp only [attribute_checks]
  cases hga : get_attribute_name node with
  | nil => simp only [hga]; exact h
  | cons fn0 rest =>
    simp only [hga]
    have h1 := UD_add_member
      (UD_visit_attribute_modules t fn0 rest (dotted_name [DotPart.l (fn0 :: rest)]) st h)
      t (dotted_name [DotPart.l (fn0 :: rest)])
    split
    · split
      · exact UD_add_member h1 t _
      · exact UD_add_member h1 t _
    · exact h1

theorem UD_call_name_codecs {name : String} (t : Tables) (id : String)
    (args kws : List Node) (s : SourceVisitor) (h : UserDefined name s) :
    UserDefined name (call_name_codecs t id args kws s) := by
  unfold call_name_codecs
  split
  · exact UD_check_codecs_function t _ _ args kws h
  · split
    · exact UD_check_codecs_function t _ _ args kws h
    · exact h

theorem UD_call_name_branch {name : String} (t : Tables) (id : String)
    (args kws : List Node) (st : SourceVisitor) (h : UserDefined name st) :
    UserDefined name (call_name_branch t id args kws st) := by
  simp only [call_name_branch]
  have h2 := UD_call_name_codecs t id args kws _
    (UD_add_member (⟨h.1, h.2.1, h.2.2⟩ :
      UserDefined name { st with function_name := Option.some id }) t id)
  split_ifs
  · exact ⟨h2.1, h2.2.1, h2.2.2⟩
  · exact UD_foldl (fun s2 a h3 => UD_array_arg_step s2 a h3) _ _ h2
  · exact h2

theorem UD_call_attr_branch {name : String} (v : Node) (a : String)
    (args : List Node) (st : SourceVisitor) (h : UserDefined name st) :
    UserDefined name (call_attr_branch v a args st) := by
  unfold call_attr_branch
  split_ifs
  · split
    · split_ifs
      · exact ⟨h.1, h.2.1, h.2.2⟩
      · exact h
    · exact h
  · exact UD_foldl (fun s2 arg h3 => UD_strftime_arg_step s2 arg h3) _ _ h
  · exact h

theorem UD_call_func_checks {name : String} (t : Tables) (func : Node)
    (args kws : List Node) (st : SourceVisitor) (h : UserDefined name st) :
    UserDefined name (call_func_checks t func args kws st) := by
  simp only [call_func_checks]
  have hpre : UserDefined name
      (match func with
      | Node.Name id => call_name_branch t id args kws st
      | Node.Attribute v a => call_attr_branch v a args st
      | _ => st) := by
    split
    · exact UD_call_name_branch t _ args kws st h
    · exact UD_call_attr_branch _ _ args st h
    · exact h
  split
  · exact UD_check_codecs_function t _ _ args kws ⟨hpre.1, hpre.2.1, hpre.2.2⟩
  · exact hpre

theorem UD_handle_FunctionDef_post {name : String} (args : ArgList) (ret : OptNode)
    (st : SourceVisitor) (h : UserDefined name st) :
    UserDefined name (handle_FunctionDef_post args ret st) := by
  unfold handle_FunctionDef_post
  repeat' split
  all_goals exact ⟨h.1, h.2.1, h.2.2⟩

theorem UD_ann_assign_rhs {name : String} (target : Node) (value : OptNode)
    (st : SourceVisitor) (h : UserDefined name st) :
    UserDefined name (ann_assign_rhs target value st) := by
  unfold ann_assign_rhs
  split
  · exact UD_add_name_res_assign _ _ _ h
  · exact h

theorem UD_foldl_import_alias {name : String} (t : Tables) (l : List (String × Option String))
    (s : SourceVisitor) (h : UserDefined name s) :
    UserDefined name (List.foldl (import_alias_step t) s l) :=
  UD_foldl (fun s2 x h2 => UD_import_alias_step t s2 x h2) l s h

theorem UD_foldl_import_from {name : String} (t : Tables) (mname : String)
    (l : List (String × Option String)) (s : SourceVisitor) (h : UserDefined name s) :
    UserDefined name (List.foldl (import_from_alias_step t mname) s l) :=
  UD_foldl (fun s2 x h2 => UD_import_from_alias_step t mname s2 x h2) l s h

theorem UD_foldl_user_def_node {name : String} (l : List Node)
    (s : SourceVisitor) (h : UserDefined name s) :
    UserDefined name (List.foldl add_user_def_node s l) :=
  UD_foldl (fun s2 x h2 => UD_add_user_def_node s2 x h2) l s h

/-- The whole traversal preserves the suppression invariant, mutually over
the four visiting functions. -/
theorem UD_visit_all (cfg : Config) (t : Tables) (name : String) :
    (∀ n st, UserDefined name st → UserDefined name (visit cfg t n st)) ∧
      (∀ ar st, UserDefined name st → UserDefined name (visitArgs cfg t ar st)) ∧
      (∀ o st, UserDefined name st → UserDefined name (visitOpt cfg t o st)) ∧
      (∀ ns st, UserDefined name st → UserDefined name (visitList cfg t ns st)) := by
  apply visit.mutual_induct cfg t <;> intros <;>
    simp only [visit, visitList, visitOpt, visitArgs, *] <;>
    apply_rules [UD_foldl_import_alias, UD_foldl_import_from, UD_foldl_user_def_node,
      UD_add_module, UD_add_member, UD_add_user_def, UD_add_user_def_node,
      UD_add_name_res_assign, UD_ann_assign_rhs, UD_call_func_checks, UD_keyword_checks,
      UD_attribute_checks, UD_handle_FunctionDef_post, UD_mk, UD_user_defs, UD_not_modules,
      UD_not_members]

/-! ### Claim theorems -/

/-- C1: the Version Pair merge `combine_versions` is commutative and
associative — including its conflict behaviour, stated through `Except`
bind — for all Version Pairs, so folding any collection of detected facts in
any order yields the same result. -/
theorem C1_combine_comm_assoc (a b c : VersionPair) :
    combine_versions a b = combine_versions b a ∧
      (combine_versions a b >>= fun ab => combine_versions ab c) =
        (combine_versions b c >>= fun bc => combine_versions a bc) :=
  ⟨combine_versions_comm a b, combine_versions_assoc a b c⟩

/-- C2: merging a Version Pair that excludes the 3.x line entirely (3.x slot
is the excluded marker, e.g. `(2.0, None)`) with one that excludes the 2.x
line entirely (e.g. `(None, 3.0)`) raises the distinct unresolvable-conflict
error in either argument order; it never returns a normal Version Pair. -/
theorem C2_cross_exclusion_raises (a b : VersionPair)
    (h3 : a.2 = Option.none) (h2 : b.1 = Option.none) :
    combine_versions a b = Except.error InvalidVersionException.mk ∧
      combine_versions b a = Except.error InvalidVersionException.mk :=
  ⟨combine_versions_eq_error (Or.inr ⟨h3, h2⟩),
    combine_versions_eq_error (Or.inl ⟨h2, h3⟩)⟩

theorem C2_witness :
    ((Option.some 2, Option.none) : VersionPair).2 = Option.none ∧
      ((Option.none, Option.some 3) : VersionPair).1 = Option.none ∧
      (combine_versions (Option.some 2, Option.none) (Option.none, Option.some 3) =
          Except.error InvalidVersionException.mk ∧
        combine_versions (Option.none, Option.some 3) (Option.some 2, Option.none) =
          Except.error InvalidVersionException.mk) :=
  ⟨rfl, rfl,
    C2_cross_exclusion_raises (Option.some 2, Option.none) (Option.none, Option.some 3) rfl rfl⟩

/-- C3 counterexample: visiting a unit whose `strftime` format string holds
the directive `%Y` twice records it twice — `__add_strftime_directive`
appends without any duplicate check, so the Strftime Directives observation
set is not duplicate-free and the same fact seen twice in one unit appears
twice. -/
theorem C3_counterexample :
    (visit cfgStrict Tables.empty strftimeDupUnit SourceVisitor.init).strftime_directives =
        [("%Y"), ("%Y")] ∧
      ¬ List.Nodup
        (visit cfgStrict Tables.empty strftimeDupUnit SourceVisitor.init).strftime_directives :=
  ⟨by decide, by decide⟩

/-- C3 amended: only the Modules, Keyword Usages and Array Typecodes
observation sets are de-duplicated — recording an entry already present
leaves the state unchanged — whereas Members, Strftime Directives, Codecs
Error Handlers and Codecs Encodings are appended without a duplicate check
and may hold the same fact several times. -/
theorem C3_dedup_amended (t : Tables) (st : SourceVisitor) (m fn tc : String)
    (kw : Option String)
    (hm : m ∈ st.modules) (hk : (fn, kw) ∈ st.kwargs) (ht : tc ∈ st.array_typecodes) :
    add_module st m = st ∧ add_kwargs t st fn kw = st ∧ add_array_typecode st tc = st := by
  refine ⟨?_, ?_, ?_⟩
  · by_cases h1 : m ∈ st.user_defs <;> simp [add_module, h1, hm]
  · by_cases h1 : fn ∈ st.user_defs <;> simp [add_kwargs, h1, hk]
  · simp [add_array_typecode, ht]

theorem C3_witness :
    ("abc") ∈ stC3.modules ∧ (("os.open"), Option.some ("dir_fd")) ∈ stC3.kwargs ∧
      ("u") ∈ stC3.array_typecodes ∧
      (add_module stC3 ("abc") = stC3 ∧
        add_kwargs Tables.empty stC3 ("os.open") (Option.some ("dir_fd")) = stC3 ∧
        add_array_typecode stC3 ("u") = stC3) :=
  ⟨by decide, by decide, by decide,
    C3_dedup_amended Tables.empty stC3 ("abc") ("os.open") ("u") (Option.some ("dir_fd"))
      (by decide) (by decide) (by decide)⟩

/-- `mergeSlot` preserves a lower bound of 3 on the concrete values of its
left slot: when the left slot is excluded or at least 3, so is the result. -/
theorem ge3_mergeSlot {v w : Option ℚ} (h : ∀ q, v = Option.some q → 3 ≤ q) :
    ∀ q, mergeSlot v w = Option.some q → 3 ≤ q := by
  intro q hq
  rcases v with _ | a
  · rw [mergeSlot_none_left] at hq
    cases hq
  · by_cases ha : a = 0
    · subst ha
      have h0 := h 0 rfl
      norm_num at h0
    · rcases w with _ | b
      · rw [mergeSlot_none_right] at hq
        cases hq
      · by_cases hb : b = 0
        · subst hb
          rw [mergeSlot_zero_right] at hq
          exact h q hq
        · rw [mergeSlot_some_some ha hb] at hq
          have hmax : max a b = q := Option.some.inj hq
          have h3 : 3 ≤ a := h a rfl
          calc (3:ℚ) ≤ a := h3
            _ ≤ max a b := le_max_left a b
            _ = q := hmax

/-- `combine_versions` preserves a 3.x-slot floor of 3 (or exclusion). -/
theorem ge3_combine {m v m2 : VersionPair}
    (hc : combine_versions m v = Except.ok m2) (h : ∀ q, m.2 = Option.some q → 3 ≤ q) :
    ∀ q, m2.2 = Option.some q → 3 ≤ q := by
  by_cases hcon : (m.1 = Option.none ∧ v.2 = Option.none) ∨
      (m.2 = Option.none ∧ v.1 = Option.none)
  · rw [combine_versions_eq_error hcon] at hc
    cases hc
  · rw [combine_versions_eq_ok hcon] at hc
    have hp := Except.ok.inj hc
    intro q hq
    rw [← hp] at hq
    exact ge3_mergeSlot h q hq

/-- The flag stages of `minimum_versions` preserve a 3.x-slot floor of 3. -/
theorem ge3_stage {b : Bool} {m m2 v : VersionPair}
    (hs : (if b then combine_versions m v else pure m) = Except.ok m2)
    (h : ∀ q, m.2 = Option.some q → 3 ≤ q) : ∀ q, m2.2 = Option.some q → 3 ≤ q := by
  cases b
  · simp only [if_neg Bool.false_ne_true, pure, Except.pure] at hs
    rw [← Except.ok.inj hs]
    exact h
  · exact ge3_combine (by simpa using hs) h

/-- The table-driven loops of `minimum_versions` preserve a 3.x-slot floor of
3. -/
theorem ge3_foldReqs {α : Type} (f : α → Option VersionPair) :
    ∀ (l : List α) (m m2 : VersionPair), foldReqs f l m = Except.ok m2 →
      (∀ q, m.2 = Option.some q → 3 ≤ q) → (∀ q, m2.2 = Option.some q → 3 ≤ q) := by
  intro l
  induction l with
  | nil =>
    intro m m2 h hm
    rw [← Except.ok.inj h]
    exact hm
  | cons x xs ih =>
    intro m m2 h hm
    unfold foldReqs at h
    cases hfx : f x with
    | none =>
      simp only [hfx] at h
      exact ih m m2 h hm
    | some v =>
      simp only [hfx] at h
      cases hcv : combine_versions m v with
      | error e =>
        simp only [hcv] at h
        cases h
      | ok mm =>
        simp only [hcv] at h
        exact ih mm m2 h (ge3_combine hcv hm)

/-- The inner codecs-encodings sweep preserves a 3.x-slot floor of 3. -/
theorem ge3_foldEncodingTable (enc : String) :
    ∀ (table : List (List String × VersionPair)) (m m2 : VersionPair),
      foldEncodingTable enc table m = Except.ok m2 →
      (∀ q, m.2 = Option.some q → 3 ≤ q) → (∀ q, m2.2 = Option.some q → 3 ≤ q) := by
  intro table
  induction table with
  | nil =>
    intro m m2 h hm
    rw [← Except.ok.inj h]
    exact hm
  | cons e rest ih =>
    intro m m2 h hm
    rcases e with ⟨aliases, v⟩
    unfold foldEncodingTable at h
    by_cases hin : strToLower enc ∈ aliases
    · rw [if_pos hin] at h
      cases hcv : combine_versions m v with
      | error er =>
        simp only [hcv] at h
        cases h
      | ok mm =>
        simp only [hcv] at h
        exact ih mm m2 h (ge3_combine hcv hm)
    · rw [if_neg hin] at h
      exact ih m m2 h hm

/-- The codecs-encodings loop preserves a 3.x-slot floor of 3. -/
theorem ge3_foldEncodings (table : List (List String × VersionPair)) :
    ∀ (l : List String) (m m2 : VersionPair), foldEncodings table l m = Except.ok m2 →
      (∀ q, m.2 = Option.some q → 3 ≤ q) → (∀ q, m2.2 = Option.some q → 3 ≤ q) := by
  intro l
  induction l with
  | nil =>
    intro m m2 h hm
    rw [← Except.ok.inj h]
    exact hm
  | cons e es ih =>
    intro m m2 h hm
    unfold foldEncodings at h
    cases ht : foldEncodingTable e table m with
    | error er =>
      simp only [ht] at h
      cases h
    | ok mm =>
      simp only [ht] at h
      exact ih mm m2 h (ge3_foldEncodingTable e table m mm ht hm)

/-- Inversion of a successful `Except` bind. -/
theorem exists_of_bind_ok {x : Except InvalidVersionException VersionPair}
    {f : VersionPair → Except InvalidVersionException VersionPair} {b : VersionPair}
    (h : (x >>= f) = Except.ok b) : ∃ a, x = Except.ok a ∧ f a = Except.ok b := by
  cases x with
  | error e =>
    rw [bind_error_eq] at h
    cases h
  | ok a => exact ⟨a, rfl, h⟩

/-- C4: after `mark-as-user-defined(name)` — the `__add_user_def` operation a
function definition, class definition or assignment-target name triggers — no
Module or Member observation spelled exactly `name` remains, and none
reappears after visiting any sequence of subsequent nodes (imports,
attribute references, or anything else): every later insertion attempt for
that spelling is rejected. -/
theorem C4_user_def_suppression (cfg : Config) (t : Tables) (st : SourceVisitor)
    (name : String) (nodes : NodeList) :
    name ∉ (visitList cfg t nodes (add_user_def st name)).modules ∧
      name ∉ (visitList cfg t nodes (add_user_def st name)).members := by
  have h := (UD_visit_all cfg t name).2.2.2 nodes (add_user_def st name)
    (UD_add_user_def_self name st)
  exact ⟨h.2.1, h.2.2⟩

/-- C5 counterexample: the unit `s = b'hello'` (from `test_bytesv3`) sets the
byte-string flag and resolves, without any conflict, to `(0, 3.0)`: the 2.x
slot is the no-constraint marker `0` — not the excluded marker —
because `minimum_versions` implements the flag as the direct slot assignment
`mins[1] = 3.0` and leaves the 2.x slot alone. -/
theorem C5_counterexample :
    (visit cfgStrict Tables.empty bytesUnit SourceVisitor.init).bytesv3 = true ∧
      minimum_versions Tables.empty
          (visit cfgStrict Tables.empty bytesUnit SourceVisitor.init) =
        Except.ok (Option.some 0, Option.some 3) ∧
      Option.some (0 : ℚ) ≠ Option.none :=
  ⟨by decide, by decide, by decide⟩

/-- C5 amended: the byte-string flag forces the 3.x slot to `3.0` at its
stage and every later merge can only raise or exclude it, so whenever the
flag is set and the resolution returns normally the 3.x slot is the excluded
marker or a concrete floor of at least 3.0; the 2.x slot, however, is left
untouched by the flag (it stays `0` when nothing else constrains it, see the
counterexample) — the byte-string flag does not make the unit v3-only. -/
theorem C5_bytesv3_amended (t : Tables) (st : SourceVisitor) (p : VersionPair)
    (hb : st.bytesv3 = true) (h : minimum_versions t st = Except.ok p) :
    ∀ q, p.2 = Option.some q → 3 ≤ q := by
  unfold minimum_versions at h
  simp only [hb, if_true] at h
  obtain ⟨m1, hs1, h⟩ := exists_of_bind_ok h
  obtain ⟨m2, hs2, h⟩ := exists_of_bind_ok h
  obtain ⟨m3, hs3, h⟩ := exists_of_bind_ok h
  obtain ⟨m4, hs4, h⟩ := exists_of_bind_ok h
  obtain ⟨m5, hs5, h⟩ := exists_of_bind_ok h
  obtain ⟨m6, hs6, h⟩ := exists_of_bind_ok h
  obtain ⟨m7, hs7, h⟩ := exists_of_bind_ok h
  obtain ⟨m8, hs8, h⟩ := exists_of_bind_ok h
  obtain ⟨m9, hs9, h⟩ := exists_of_bind_ok h
  obtain ⟨m10, hs10, h⟩ := exists_of_bind_ok h
  obtain ⟨m11, hs11, h⟩ := exists_of_bind_ok h
  obtain ⟨m12, hs12, h⟩ := exists_of_bind_ok h
  obtain ⟨m13, hs13, h⟩ := exists_of_bind_ok h
  obtain ⟨m14, hs14, h⟩ := exists_of_bind_ok h
  have g4 : ∀ q, ((m3.1, Option.some (3:ℚ)) : VersionPair).2 = Option.some q → 3 ≤ q :=
    fun q hq => le_of_eq (Option.some.inj hq)
  have g5 := ge3_stage hs4 g4
  have g6 := ge3_stage hs5 g5
  have g7 := ge3_stage hs6 g6
  have g8 := ge3_stage hs7 g7
  have g9 := ge3_stage hs8 g8
  have g10 := ge3_foldReqs _ _ _ _ hs9 g9
  have g11 := ge3_foldReqs _ _ _ _ hs10 g10
  have g12 := ge3_foldReqs _ _ _ _ hs11 g11
  have g13 := ge3_foldEncodings _ _ _ _ hs12 g12
  have g14 := ge3_foldReqs _ _ _ _ hs13 g13
  have g15 := ge3_foldReqs _ _ _ _ hs14 g14
  exact ge3_foldReqs _ _ _ _ h g15

theorem C5_witness :
    (visit cfgStrict Tables.empty bytesUnit SourceVisitor.init).bytesv3 = true ∧
      minimum_versions Tables.empty
          (visit cfgStrict Tables.empty bytesUnit SourceVisitor.init) =
        Except.ok (Option.some 0, Option.some 3) ∧
      (∀ q : ℚ, (Option.some (3:ℚ)) = Option.some q → 3 ≤ q) :=
  ⟨by decide, by decide,
    C5_bytesv3_amended Tables.empty (visit cfgStrict Tables.empty bytesUnit SourceVisitor.init)
      (Option.some 0, Option.some 3) (by decide) (by decide)⟩

/-- C6 counterexample: the two-node tree `a.b` (an `Attribute` over a `Name`)
dispatches only one node — `visit_Attribute` resolves the whole dotted path
itself and never recurses — so the traversal does not dispatch every node of
the tree. -/
theorem C6_counterexample :
    dispatchCount false (Node.Attribute (Node.Name ("a")) ("b")) ≠
      Node.size (Node.Attribute (Node.Name ("a")) ("b")) := by decide

/-- Every handler dispatches each node of its subtree at most once: the
dispatch count is bounded by the node count, mutually over all four node
collections. -/
theorem dispatch_le_size_all (lax : Bool) :
    (∀ n, dispatchCount lax n ≤ Node.size n) ∧
      (∀ ar, dispatchCountArgs lax ar ≤ ArgList.sizeA ar) ∧
      (∀ o, dispatchCountOpt lax o ≤ OptNode.sizeO o) ∧
      (∀ ns, dispatchCountList lax ns ≤ NodeList.sizeL ns) := by
  apply dispatchCount.mutual_induct lax <;>
    intros <;>
    simp_all [dispatchCount, dispatchCountList, dispatchCountOpt, dispatchCountArgs,
      Node.size, NodeList.sizeL, OptNode.sizeO, ArgList.sizeA] <;>
    (try split_ifs) <;> omega

/-- C6 amended: with lax mode off (indeed in either mode) the single
depth-first traversal dispatches every node of the input tree at most once —
never twice — but handlers that do not recurse (`visit_Attribute`,
`visit_ImportFrom`, the literal handlers, `visit_keyword`) skip the nodes
below them, so some nodes receive no dispatch at all (see the
counterexample). -/
theorem C6_at_most_once_amended (lax : Bool) (n : Node) :
    dispatchCount lax n ≤ Node.size n :=
  (dispatch_le_size_all lax).1 n

/-- C7: the `test_named_expressions` unit (`a = 1` then
`if (b := a) == 1: print(b)`) resolves to `(2.0, 3.0)` — from the
print-as-call flag only.  `SourceVisitor` has no named-expression handler and
no named-expression flag (the `named_expressions()` accessor the test calls
does not exist), so no v3.8 requirement is produced. -/
theorem C7_no_walrus_requirement :
    minimum_versions Tables.empty
        (visit cfgStrict Tables.empty walrusUnit SourceVisitor.init) =
      Except.ok (Option.some 2, Option.some 3) := by decide

/-- C8: each conditional, loop, exception and boolean-operator construct is
traversed normally (its children in field order) when lax mode is off, and is
skipped entirely — the analysis state is returned untouched, so nothing
inside is recorded — when lax mode is on. -/
theorem C8_lax_mode_gates (cfg : Config) (t : Tables) (st : SourceVisitor)
    (te bo oe : Node) (body orelse handlers finalbody values : NodeList) :
    visit cfg t (Node.If te body orelse) st =
      (if cfg.lax_mode then st
        else visitList cfg t orelse (visitList cfg t body (visit cfg t te st))) ∧
    visit cfg t (Node.IfExp te bo oe) st =
      (if cfg.lax_mode then st
        else visit cfg t oe (visit cfg t bo (visit cfg t te st))) ∧
    visit cfg t (Node.For te bo body orelse) st =
      (if cfg.lax_mode then st
        else visitList cfg t orelse
          (visitList cfg t body (visit cfg t bo (visit cfg t te st)))) ∧
    visit cfg t (Node.While te body orelse) st =
      (if cfg.lax_mode then st
        else visitList cfg t orelse (visitList cfg t body (visit cfg t te st))) ∧
    visit cfg t (Node.Try body handlers orelse finalbody) st =
      (if cfg.lax_mode then st
        else visitList cfg t finalbody
          (visitList cfg t orelse (visitList cfg t handlers (visitList cfg t body st)))) ∧
    visit cfg t (Node.TryExcept body handlers orelse) st =
      (if cfg.lax_mode then st
        else visitList cfg t orelse (visitList cfg t handlers (visitList cfg t body st))) ∧
    visit cfg t (Node.BoolOp values) st =
      (if cfg.lax_mode then st else visitList cfg t values st) := by
  rcases cfg with ⟨lax⟩
  cases lax <;> exact ⟨rfl, rfl, rfl, rfl, rfl, rfl, rfl⟩

/-- C9: visiting the call `"{}".format(x)` — a dotted callee ending in
`format` whose string-literal receiver holds an empty field — sets the
empty-field format flag; visiting `"{0}".format(x)` leaves it unset. -/
theorem C9_format_flag :
    (visit cfgStrict Tables.empty
        (Node.Call (Node.Attribute (Node.Str ("\x7b\x7d")) ("format"))
          (nl [Node.Name ("x")]) NodeList.nil) SourceVisitor.init).format27 = true ∧
      (visit cfgStrict Tables.empty
        (Node.Call (Node.Attribute (Node.Str ("\x7b0\x7d")) ("format"))
          (nl [Node.Name ("x")]) NodeList.nil) SourceVisitor.init).format27 = false :=
  ⟨by decide, by decide⟩

/-- C10: a from-import node whose module field is absent (a relative import
such as `from . import x`) records nothing at all and its children are not
traversed: the analysis state is exactly as it was before the node. -/
theorem C10_relative_import_noop (cfg : Config) (t : Tables) (st : SourceVisitor)
    (names : List (String × Option String)) :
    visit cfg t (Node.ImportFrom Option.none names) st = st := rfl

end Vermin
